import Mathlib

/-!
# Tiled-MM: completion-marker wrapper and status lookup

Shallow embedding of `src/Tiled-MM/cuda_event.hpp` (class `gpu::cuda_event`) and of
`gpu::blas_api::status::get_string` from `src/Tiled-MM/gpu_blas_api.hpp`.

* C++ objects live in a store indexed by their address; `this != &other` is a
  comparison of addresses.
* The device runtime is external.  It is a parameter (`Device`): its answer to a
  call may depend on every call issued so far.  Every call the wrapper issues is
  appended to the trace of the world together with the answer it got.
* A finite `float` or `double` value is represented by the rational number it denotes.
  An operation on `double` values rounds its exact result to binary64, to nearest with
  ties to even (`binary64`).  Infinities and NaN have no rational value and are not
  represented.
-/

namespace gpu

/-! ## Device runtime interface -/

/-- Handle type `cudaEvent_t` of the device runtime (an opaque pointer). -/
abbrev cudaEvent_t := Nat

/-- Status type `cudaError_t` of the device runtime. -/
abbrev cudaError_t := Nat

/-- Stream handle `cudaStream_t`. -/
abbrev cudaStream_t := Nat

/-- Status `cudaSuccess` of the runtime header. -/
def cudaSuccess : cudaError_t := 0

/-- Status `cudaErrorInvalidResourceHandle` of the runtime header. -/
def cudaErrorInvalidResourceHandle : cudaError_t := 400

/-- Creation flag `cudaEventDisableTiming` of the runtime header. -/
def cudaEventDisableTiming : Nat := 2

/-- One call to the device runtime, with its arguments and with what the runtime answered. -/
inductive Call where
  | cudaEventCreateWithFlags (flags : Nat) (status : cudaError_t) (event : cudaEvent_t)
  | cudaEventDestroy (event : cudaEvent_t) (status : cudaError_t)
  | cudaEventSynchronize (event : cudaEvent_t) (status : cudaError_t)
  | cudaEventElapsedTime (start stop : cudaEvent_t) (status : cudaError_t) (ms : ℚ)
  | cudaEventRecord (event : cudaEvent_t) (stream : cudaStream_t) (status : cudaError_t)
  deriving DecidableEq

/-- The device runtime: for each entry point, the answer as a function of the calls
issued so far and of the arguments.  `cudaEventCreateWithFlags` answers a status and
the handle it stores through its out-pointer; `cudaEventElapsedTime` answers a status
and the milliseconds it stores through its `float` out-pointer. -/
structure Device where
  cudaEventCreateWithFlags : List Call → Nat → cudaError_t × cudaEvent_t
  cudaEventDestroy : List Call → cudaEvent_t → cudaError_t
  cudaEventSynchronize : List Call → cudaEvent_t → cudaError_t
  cudaEventElapsedTime : List Call → cudaEvent_t → cudaEvent_t → cudaError_t × ℚ
  cudaEventRecord : List Call → cudaEvent_t → cudaStream_t → cudaError_t

/-! ## Floating-point values -/

/-- Nearest integer to a nonnegative rational, a tie going to the even neighbour. -/
def roundHalfEven (x : ℚ) : ℕ :=
  let f := ⌊x⌋₊
  if x - f < 1 / 2 then f
  else if 1 / 2 < x - f then f + 1
  else if f % 2 = 0 then f else f + 1

/-- Rounding of an exact result to the C++ type `double` (IEEE 754 binary64), to nearest
with ties to even.  The last place of the result has weight `2 ^ k`, where `k` is 52
below the binary exponent of `q` and at least -1074 (subnormal results).  Magnitudes
from `2 ^ 1024` on, which round to an infinity, have no rational value; the quotient of
a `float` by 1000 stays below them. -/
def binary64 (q : ℚ) : ℚ :=
  if q = 0 then 0
  else
    let k : ℤ := max (Int.log 2 |q| - 52) (-1074)
    let n := roundHalfEven (|q| / 2 ^ k)
    if q < 0 then -((n : ℚ) * 2 ^ k) else (n : ℚ) * 2 ^ k

/-- A finite value of the C++ type `float` (IEEE 754 binary32): a significand below
`2 ^ 24` times a power of two with exponent from -149 to 104, of either sign. -/
def IsBinary32 (x : ℚ) : Prop :=
  ∃ (m : ℕ) (e : ℤ), m < 2 ^ 24 ∧ -149 ≤ e ∧ e ≤ 104 ∧ |x| = m * 2 ^ e

/-- A finite value of the C++ type `double` (IEEE 754 binary64): a significand below
`2 ^ 53` times a power of two with exponent from -1074 to 971, of either sign. -/
def IsBinary64 (x : ℚ) : Prop :=
  ∃ (m : ℕ) (e : ℤ), m < 2 ^ 53 ∧ -1074 ≤ e ∧ e ≤ 971 ∧ |x| = m * 2 ^ e

/-! ## The class `cuda_event` -/

/-- Data members of `cuda_event` (lines 77-78). -/
structure cuda_event where
  valid_ : Bool
  event_ : cudaEvent_t
  deriving DecidableEq, Repr

/-- Address of a C++ object. -/
abbrev Addr := Nat

/-- Program state: the live `cuda_event` objects by address, and the runtime calls so far. -/
structure World where
  objs : Addr → Option cuda_event
  trace : List Call

/-- The state before any object exists and before any runtime call. -/
def World.empty : World := ⟨fun _ => none, []⟩

/-- How a member function ends: it returns, or `cuda_check_status` escalates a fatal
failure, or the call has no defined behaviour (an operand is not a live object). -/
inductive Outcome (α : Type) where
  | returned (w : World) (value : α)
  | fatal (w : World) (status : cudaError_t)
  | undefined

/-- The world in which an outcome ends, when it has one. -/
def Outcome.world? {α : Type} : Outcome α → Option World
  | .returned w _ => some w
  | .fatal w _ => some w
  | .undefined => none

/-- Modelled from the spec: `cuda_check_status` of `util.hpp`, which is not among the
sources.  Section 7: a synchronization-layer call whose status is not success is
escalated immediately as a fatal failure; a success status lets execution continue. -/
def cuda_check_status (status : cudaError_t) : Except cudaError_t Unit :=
  if status ≠ cudaSuccess then .error status else .ok ()

/-- Default constructor `cuda_event()` (lines 14-18), run on the storage at `this`. -/
def cuda_event.ctor (dev : Device) (this : Addr) (w : World) : Outcome Unit :=
  match w.objs this with
  | some _ => .undefined
  | none =>
    let r := dev.cudaEventCreateWithFlags w.trace cudaEventDisableTiming
    let status := r.1
    let tr := w.trace ++ [Call.cudaEventCreateWithFlags cudaEventDisableTiming status r.2]
    match cuda_check_status status with
    | .error e => .fatal ⟨w.objs, tr⟩ e
    | .ok _ => .returned ⟨Function.update w.objs this (some ⟨true, r.2⟩), tr⟩ ()

/-- Destructor `~cuda_event()` (lines 20-28).  The lifetime of the object ends; no data
member is written. -/
def cuda_event.dtor (dev : Device) (this : Addr) (w : World) : Outcome Unit :=
  match w.objs this with
  | none => .undefined
  | some self =>
    let objs := Function.update w.objs this none
    if self.valid_ then
      let status := dev.cudaEventDestroy w.trace self.event_
      let tr := w.trace ++ [Call.cudaEventDestroy self.event_ status]
      match cuda_check_status status with
      | .error e => .fatal ⟨objs, tr⟩ e
      | .ok _ => .returned ⟨objs, tr⟩ ()
    else .returned ⟨objs, w.trace⟩ ()

/-- Move constructor `cuda_event(cuda_event&& other)` (lines 31-35), run on the storage
at `this`. -/
def cuda_event.move_ctor (this other : Addr) (w : World) : Outcome Unit :=
  match w.objs this, w.objs other with
  | none, some o =>
    let self : cuda_event := ⟨o.valid_, o.event_⟩
    let objs := Function.update w.objs this (some self)
    .returned ⟨Function.update objs other (some ⟨false, o.event_⟩), w.trace⟩ ()
  | _, _ => .undefined

/-- Move assignment `operator=(cuda_event&& other)` (lines 38-49). -/
def cuda_event.operator_assign (dev : Device) (this other : Addr) (w : World) :
    Outcome Unit :=
  match w.objs this, w.objs other with
  | some self, some o =>
    if this ≠ other then
      let moved : Addr → Option cuda_event :=
        Function.update (Function.update w.objs this (some ⟨o.valid_, o.event_⟩))
          other (some ⟨false, o.event_⟩)
      if self.valid_ then
        let status := dev.cudaEventDestroy w.trace self.event_
        let tr := w.trace ++ [Call.cudaEventDestroy self.event_ status]
        match cuda_check_status status with
        | .error e => .fatal ⟨w.objs, tr⟩ e
        | .ok _ => .returned ⟨moved, tr⟩ ()
      else .returned ⟨moved, w.trace⟩ ()
    else .returned w ()
  | _, _ => .undefined

/-- Accessor `event()` (lines 57-59). -/
def cuda_event.event (self : cuda_event) : cudaEvent_t := self.event_

/-- Member `wait()` (lines 62-65). -/
def cuda_event.wait (dev : Device) (this : Addr) (w : World) : Outcome Unit :=
  match w.objs this with
  | none => .undefined
  | some self =>
    let status := dev.cudaEventSynchronize w.trace self.event_
    let tr := w.trace ++ [Call.cudaEventSynchronize self.event_ status]
    match cuda_check_status status with
    | .error e => .fatal ⟨w.objs, tr⟩ e
    | .ok _ => .returned ⟨w.objs, tr⟩ ()

/-- Member `time_since(cuda_event& other)` (lines 68-74).  The runtime stores the
milliseconds in the `float` variable `time_taken`.  In `time_taken / 1.e3` the `float` is
converted to `double`, which changes no value, and divided by the `double` 1000: the
value returned is the exact quotient rounded to binary64. -/
def cuda_event.time_since (dev : Device) (this other : Addr) (w : World) : Outcome ℚ :=
  match w.objs this, w.objs other with
  | some self, some o =>
    let r := dev.cudaEventElapsedTime w.trace o.event self.event_
    let status := r.1
    let time_taken := r.2
    let tr := w.trace ++ [Call.cudaEventElapsedTime o.event self.event_ status time_taken]
    match cuda_check_status status with
    | .error e => .fatal ⟨w.objs, tr⟩ e
    | .ok _ => .returned ⟨w.objs, tr⟩ (binary64 (time_taken / 1000))
  | _, _ => .undefined

/-- Engine-side `cudaEventRecord(e.event(), stream)`: the marker at `this` is inserted
into a stream through its accessor.  The engine returns the status to its caller. -/
def record (dev : Device) (this : Addr) (stream : cudaStream_t) (w : World) :
    Outcome cudaError_t :=
  match w.objs this with
  | none => .undefined
  | some self =>
    let status := dev.cudaEventRecord w.trace self.event stream
    .returned ⟨w.objs, w.trace ++ [Call.cudaEventRecord self.event stream status]⟩ status

/-! ## Programs over markers -/

/-- One operation of a program on markers, by the addresses of its operands. -/
inductive Op where
  | construct (this : Addr)
  | moveConstruct (this other : Addr)
  | moveAssign (this other : Addr)
  | destruct (this : Addr)
  | wait (this : Addr)
  | timeSince (this other : Addr)
  | record (this : Addr) (stream : cudaStream_t)
  deriving DecidableEq

/-- Forget the value an operation returns. -/
def Outcome.discard {α : Type} : Outcome α → Outcome Unit
  | .returned w _ => .returned w ()
  | .fatal w s => .fatal w s
  | .undefined => .undefined

/-- Run one operation. -/
def step (dev : Device) (op : Op) (w : World) : Outcome Unit :=
  match op with
  | .construct this => cuda_event.ctor dev this w
  | .moveConstruct this other => cuda_event.move_ctor this other w
  | .moveAssign this other => cuda_event.operator_assign dev this other w
  | .destruct this => cuda_event.dtor dev this w
  | .wait this => cuda_event.wait dev this w
  | .timeSince this other => (cuda_event.time_since dev this other w).discard
  | .record this stream => (record dev this stream w).discard

/-- Run a program.  A fatal failure ends the process: the operations after it do not run. -/
def run (dev : Device) : List Op → World → Outcome Unit
  | [], w => .returned w ()
  | op :: ops, w =>
    match step dev op w with
    | .returned w1 _ => run dev ops w1
    | .fatal w1 s => .fatal w1 s
    | .undefined => .undefined

/-- Handles the runtime handed out: the out-values of the successful allocation calls. -/
def allocated : List Call → List cudaEvent_t
  | [] => []
  | Call.cudaEventCreateWithFlags _ status event :: t =>
    if status = cudaSuccess then event :: allocated t else allocated t
  | _ :: t => allocated t

/-- Handles on which a release call was issued, one entry per call. -/
def released : List Call → List cudaEvent_t
  | [] => []
  | Call.cudaEventDestroy event _ :: t => event :: released t
  | _ :: t => released t

/-- Flags of the latest successful allocation that handed out `h`, if there is one. -/
def lastFlags (h : cudaEvent_t) : List Call → Option Nat
  | [] => none
  | Call.cudaEventCreateWithFlags flags status event :: t =>
    match lastFlags h t with
    | some f => some f
    | none => if status = cudaSuccess ∧ event = h then some flags else none
  | _ :: t => lastFlags h t

/-- Whether a call, when it is an allocation, passed the flag `cudaEventDisableTiming`. -/
def createFlagsOk : Call → Bool
  | Call.cudaEventCreateWithFlags flags _ _ => decide (flags = cudaEventDisableTiming)
  | _ => true

/-- Every live valid marker holds a handle the runtime handed out, and every allocation
call so far passed `cudaEventDisableTiming`. -/
def World.TimingInv (w : World) : Prop :=
  (∀ a m, w.objs a = some m → m.valid_ = true → m.event_ ∈ allocated w.trace) ∧
  w.trace.all createFlagsOk = true

/-- The rule of the runtime documentation for `cudaEventElapsedTime`: it does not
succeed when either marker was created with the flag `cudaEventDisableTiming`. -/
def Device.HonoursDisableTiming (dev : Device) : Prop :=
  ∀ (tr : List Call) (start stop : cudaEvent_t),
    (lastFlags start tr = some cudaEventDisableTiming ∨
      lastFlags stop tr = some cudaEventDisableTiming) →
    (dev.cudaEventElapsedTime tr start stop).1 ≠ cudaSuccess

/-- A runtime in which every call succeeds: the n-th call, when it is an allocation,
hands out the handle `n`; an elapsed-time query answers `ms` milliseconds. -/
def okDevice (ms : ℚ) : Device where
  cudaEventCreateWithFlags := fun tr _ => (cudaSuccess, tr.length)
  cudaEventDestroy := fun _ _ => cudaSuccess
  cudaEventSynchronize := fun _ _ => cudaSuccess
  cudaEventElapsedTime := fun _ _ _ => (cudaSuccess, ms)
  cudaEventRecord := fun _ _ _ => cudaSuccess

/-- A runtime in which every call fails with status `s`. -/
def failDevice (s : cudaError_t) : Device where
  cudaEventCreateWithFlags := fun _ _ => (s, 0)
  cudaEventDestroy := fun _ _ => s
  cudaEventSynchronize := fun _ _ => s
  cudaEventElapsedTime := fun _ _ _ => (s, 0)
  cudaEventRecord := fun _ _ _ => s

/-- A runtime that follows the documented rule on markers without timing: like
`okDevice 0`, except that an elapsed-time query on a marker created with
`cudaEventDisableTiming` answers `cudaErrorInvalidResourceHandle`. -/
def timingDevice : Device where
  cudaEventCreateWithFlags := fun tr _ => (cudaSuccess, tr.length)
  cudaEventDestroy := fun _ _ => cudaSuccess
  cudaEventSynchronize := fun _ _ => cudaSuccess
  cudaEventElapsedTime := fun tr start stop =>
    if lastFlags start tr = some cudaEventDisableTiming ∨
        lastFlags stop tr = some cudaEventDisableTiming
    then (cudaErrorInvalidResourceHandle, 0) else (cudaSuccess, 0)
  cudaEventRecord := fun _ _ _ => cudaSuccess

/-- Handle an object owns: the handle of a live marker whose validity flag is set. -/
def ownOf : Option cuda_event → Option cudaEvent_t
  | some m => if m.valid_ = true then some m.event_ else none
  | none => none

/-- Owner map of a store: the handle owned at each address. -/
def ownMap (objs : Addr → Option cuda_event) : Addr → Option cudaEvent_t :=
  fun a => ownOf (objs a)

/-- Ownership invariant, over the owner map, the handles handed out `A` and the handles
released `R`: an owned handle was handed out and is not released, no handle has two
owners, no handle is released twice, only handles handed out are released, and a
handle handed out is owned or released. -/
structure OwnInv (own : Addr → Option cudaEvent_t) (A R : List cudaEvent_t) : Prop where
  owned_alloc : ∀ a h, own a = some h → h ∈ A
  owned_live : ∀ a h, own a = some h → h ∉ R
  owned_inj : ∀ a b h, own a = some h → own b = some h → a = b
  rel_nodup : R.Nodup
  rel_alloc : ∀ h, h ∈ R → h ∈ A
  alloc_cases : ∀ h, h ∈ A → h ∈ R ∨ ∃ a, own a = some h

/-- The ownership invariant of a state. -/
def World.Inv (w : World) : Prop :=
  OwnInv (ownMap w.objs) (allocated w.trace) (released w.trace)

/-- At most one owner: no two live valid markers hold the same handle, no handle has two
release calls, and when no object is live every handle handed out has exactly one
release call. -/
def World.AtMostOneOwner (w : World) : Prop :=
  (∀ a b ma mb, w.objs a = some ma → w.objs b = some mb → ma.valid_ = true →
    mb.valid_ = true → ma.event_ = mb.event_ → a = b) ∧
  (released w.trace).Nodup ∧
  ((∀ a, w.objs a = none) → ∀ h, h ∈ allocated w.trace → (released w.trace).count h = 1)

/-- A state with a valid marker at address 0 (handle 7), an invalid marker at address 1
(handle 9), a valid marker at address 2 (handle 5), and no runtime call so far. -/
def sampleWorld : World :=
  ⟨fun a => if a = 0 then some ⟨true, 7⟩ else if a = 1 then some ⟨false, 9⟩
    else if a = 2 then some ⟨true, 5⟩ else none, []⟩

/-- A program: two constructions, a move construction, a move assignment onto a valid
marker, a self-move-assignment, a wait, and the destruction of all three objects. -/
def sampleProgram : List Op :=
  [.construct 0, .construct 1, .moveConstruct 2 0, .moveAssign 1 2, .moveAssign 1 1,
    .wait 1, .destruct 0, .destruct 1, .destruct 2]

/-- The scenario of two markers timed against each other: both constructed, inserted
one after the other into stream 0, and both waited upon. -/
def timingProgram : List Op :=
  [.construct 0, .construct 1, .record 0 0, .record 1 0, .wait 0, .wait 1]

/-- The state machine as the specification words it: no operation applied to an
existing marker changes its validity flag from invalid to valid. -/
def InvalidIsTerminal : Prop :=
  ∀ (dev : Device) (op : Op) (w w1 : World) (a : Addr) (m m1 : cuda_event),
    w.objs a = some m → m.valid_ = false →
    (step dev op w).world? = some w1 → w1.objs a = some m1 → m1.valid_ = false

/-! ## Status lookup of the dispatch layer -/

namespace blas_api

/-- `StatusType`: a value of the enumeration type of the selected backend. -/
abbrev StatusType := Int

/-- Enumerators of `cublasStatus_t` in the vendor header `cublas_v2.h`. -/
inductive cublasStatus_t where
  | CUBLAS_STATUS_SUCCESS
  | CUBLAS_STATUS_NOT_INITIALIZED
  | CUBLAS_STATUS_ALLOC_FAILED
  | CUBLAS_STATUS_INVALID_VALUE
  | CUBLAS_STATUS_ARCH_MISMATCH
  | CUBLAS_STATUS_MAPPING_ERROR
  | CUBLAS_STATUS_EXECUTION_FAILED
  | CUBLAS_STATUS_INTERNAL_ERROR
  | CUBLAS_STATUS_NOT_SUPPORTED
  | CUBLAS_STATUS_LICENSE_ERROR
  deriving DecidableEq, Repr

/-- Enumerators of `hipblasStatus_t` in the vendor header `hipblas.h`. -/
inductive hipblasStatus_t where
  | HIPBLAS_STATUS_SUCCESS
  | HIPBLAS_STATUS_NOT_INITIALIZED
  | HIPBLAS_STATUS_ALLOC_FAILED
  | HIPBLAS_STATUS_INVALID_VALUE
  | HIPBLAS_STATUS_MAPPING_ERROR
  | HIPBLAS_STATUS_EXECUTION_FAILED
  | HIPBLAS_STATUS_INTERNAL_ERROR
  | HIPBLAS_STATUS_NOT_SUPPORTED
  | HIPBLAS_STATUS_ARCH_MISMATCH
  | HIPBLAS_STATUS_HANDLE_IS_NULLPTR
  deriving DecidableEq, Repr

/-- Values of the `cublasStatus_t` enumerators in `cublas_v2.h`. -/
def cublasValue : cublasStatus_t → StatusType
  | .CUBLAS_STATUS_SUCCESS => 0
  | .CUBLAS_STATUS_NOT_INITIALIZED => 1
  | .CUBLAS_STATUS_ALLOC_FAILED => 3
  | .CUBLAS_STATUS_INVALID_VALUE => 7
  | .CUBLAS_STATUS_ARCH_MISMATCH => 8
  | .CUBLAS_STATUS_MAPPING_ERROR => 11
  | .CUBLAS_STATUS_EXECUTION_FAILED => 13
  | .CUBLAS_STATUS_INTERNAL_ERROR => 14
  | .CUBLAS_STATUS_NOT_SUPPORTED => 15
  | .CUBLAS_STATUS_LICENSE_ERROR => 16

/-- Values of the `hipblasStatus_t` enumerators in `hipblas.h`. -/
def hipblasValue : hipblasStatus_t → StatusType
  | .HIPBLAS_STATUS_SUCCESS => 0
  | .HIPBLAS_STATUS_NOT_INITIALIZED => 1
  | .HIPBLAS_STATUS_ALLOC_FAILED => 2
  | .HIPBLAS_STATUS_INVALID_VALUE => 3
  | .HIPBLAS_STATUS_MAPPING_ERROR => 4
  | .HIPBLAS_STATUS_EXECUTION_FAILED => 5
  | .HIPBLAS_STATUS_INTERNAL_ERROR => 6
  | .HIPBLAS_STATUS_NOT_SUPPORTED => 7
  | .HIPBLAS_STATUS_ARCH_MISMATCH => 8
  | .HIPBLAS_STATUS_HANDLE_IS_NULLPTR => 9

namespace status

namespace TILED_MM_CUDA

/-- Function `get_string` with `TILED_MM_CUDA` defined (lines 85-120 and 154).  `E` gives
the value of each enumerator; the case labels of a switch are pairwise distinct, so
the switch selects the first label equal to `error`. -/
def get_string (E : cublasStatus_t → StatusType) (error : StatusType) : String :=
  if error = E .CUBLAS_STATUS_SUCCESS then "CUBLAS_STATUS_SUCCESS"
  else if error = E .CUBLAS_STATUS_NOT_INITIALIZED then "CUBLAS_STATUS_NOT_INITIALIZED"
  else if error = E .CUBLAS_STATUS_ALLOC_FAILED then "CUBLAS_STATUS_ALLOC_FAILED"
  else if error = E .CUBLAS_STATUS_INVALID_VALUE then "CUBLAS_STATUS_INVALID_VALUE"
  else if error = E .CUBLAS_STATUS_ARCH_MISMATCH then "CUBLAS_STATUS_ARCH_MISMATCH"
  else if error = E .CUBLAS_STATUS_MAPPING_ERROR then "CUBLAS_STATUS_MAPPING_ERROR"
  else if error = E .CUBLAS_STATUS_EXECUTION_FAILED then "CUBLAS_STATUS_EXECUTION_FAILED"
  else if error = E .CUBLAS_STATUS_INTERNAL_ERROR then "CUBLAS_STATUS_INTERNAL_ERROR"
  else if error = E .CUBLAS_STATUS_NOT_SUPPORTED then "CUBLAS_STATUS_NOT_SUPPORTED"
  else if error = E .CUBLAS_STATUS_LICENSE_ERROR then "CUBLAS_STATUS_LICENSE_ERROR"
  else "<unknown>"

/-- The string literal returned under the case label of each enumerator (lines 90-118). -/
def caseString : cublasStatus_t → String
  | .CUBLAS_STATUS_SUCCESS => "CUBLAS_STATUS_SUCCESS"
  | .CUBLAS_STATUS_NOT_INITIALIZED => "CUBLAS_STATUS_NOT_INITIALIZED"
  | .CUBLAS_STATUS_ALLOC_FAILED => "CUBLAS_STATUS_ALLOC_FAILED"
  | .CUBLAS_STATUS_INVALID_VALUE => "CUBLAS_STATUS_INVALID_VALUE"
  | .CUBLAS_STATUS_ARCH_MISMATCH => "CUBLAS_STATUS_ARCH_MISMATCH"
  | .CUBLAS_STATUS_MAPPING_ERROR => "CUBLAS_STATUS_MAPPING_ERROR"
  | .CUBLAS_STATUS_EXECUTION_FAILED => "CUBLAS_STATUS_EXECUTION_FAILED"
  | .CUBLAS_STATUS_INTERNAL_ERROR => "CUBLAS_STATUS_INTERNAL_ERROR"
  | .CUBLAS_STATUS_NOT_SUPPORTED => "CUBLAS_STATUS_NOT_SUPPORTED"
  | .CUBLAS_STATUS_LICENSE_ERROR => "CUBLAS_STATUS_LICENSE_ERROR"

end TILED_MM_CUDA

namespace TILED_MM_ROCM

/-- Function `get_string` with `TILED_MM_ROCM` defined (lines 85-86 and 122-154). -/
def get_string (E : hipblasStatus_t → StatusType) (error : StatusType) : String :=
  if error = E .HIPBLAS_STATUS_SUCCESS then "HIPBLAS_STATUS_SUCCESS"
  else if error = E .HIPBLAS_STATUS_NOT_INITIALIZED then "HIPBLAS_STATUS_NOT_INITIALIZED"
  else if error = E .HIPBLAS_STATUS_ALLOC_FAILED then "HIPBLAS_STATUS_ALLOC_FAILED"
  else if error = E .HIPBLAS_STATUS_MAPPING_ERROR then "HIPBLAS_STATUS_MAPPING_ERROR"
  else if error = E .HIPBLAS_STATUS_EXECUTION_FAILED then "HIPBLAS_STATUS_EXECUTION_FAILED"
  else if error = E .HIPBLAS_STATUS_INTERNAL_ERROR then "HIPBLAS_STATUS_INTERNAL_ERROR"
  else if error = E .HIPBLAS_STATUS_NOT_SUPPORTED then "HIPBLAS_STATUS_NOT_SUPPORTED"
  else if error = E .HIPBLAS_STATUS_ARCH_MISMATCH then "HIPBLAS_STATUS_ARCH_MISMATCH"
  else if error = E .HIPBLAS_STATUS_HANDLE_IS_NULLPTR then "HIPBLAS_STATUS_HANDLE_IS_NULLPTR"
  else "<unknown>"

/-- The string literal returned under the case label of each enumerator (lines
125-150); the switch has no case label for `HIPBLAS_STATUS_INVALID_VALUE`. -/
def caseString : hipblasStatus_t → Option String
  | .HIPBLAS_STATUS_SUCCESS => some "HIPBLAS_STATUS_SUCCESS"
  | .HIPBLAS_STATUS_NOT_INITIALIZED => some "HIPBLAS_STATUS_NOT_INITIALIZED"
  | .HIPBLAS_STATUS_ALLOC_FAILED => some "HIPBLAS_STATUS_ALLOC_FAILED"
  | .HIPBLAS_STATUS_INVALID_VALUE => none
  | .HIPBLAS_STATUS_MAPPING_ERROR => some "HIPBLAS_STATUS_MAPPING_ERROR"
  | .HIPBLAS_STATUS_EXECUTION_FAILED => some "HIPBLAS_STATUS_EXECUTION_FAILED"
  | .HIPBLAS_STATUS_INTERNAL_ERROR => some "HIPBLAS_STATUS_INTERNAL_ERROR"
  | .HIPBLAS_STATUS_NOT_SUPPORTED => some "HIPBLAS_STATUS_NOT_SUPPORTED"
  | .HIPBLAS_STATUS_ARCH_MISMATCH => some "HIPBLAS_STATUS_ARCH_MISMATCH"
  | .HIPBLAS_STATUS_HANDLE_IS_NULLPTR => some "HIPBLAS_STATUS_HANDLE_IS_NULLPTR"

end TILED_MM_ROCM

end status

end blas_api

end gpu

/-! ## Theorems -/

namespace gpu

theorem cuda_check_status_success : cuda_check_status cudaSuccess = .ok () := by
  simp [cuda_check_status]

theorem cuda_check_status_failure {s : cudaError_t} (h : s ≠ cudaSuccess) :
    cuda_check_status s = .error s := by
  simp [cuda_check_status, h]

/-! ### Ownership bookkeeping -/

theorem allocated_append (x y : List Call) : allocated (x ++ y) = allocated x ++ allocated y := by
  induction x with
  | nil => rfl
  | cons c t ih =>
    cases c with
    | cudaEventCreateWithFlags f st e =>
      by_cases hs : st = cudaSuccess <;> simp [allocated, hs, ih]
    | cudaEventDestroy e st => simpa [allocated] using ih
    | cudaEventSynchronize e st => simpa [allocated] using ih
    | cudaEventElapsedTime a b st ms => simpa [allocated] using ih
    | cudaEventRecord e st r => simpa [allocated] using ih

theorem released_append (x y : List Call) : released (x ++ y) = released x ++ released y := by
  induction x with
  | nil => rfl
  | cons c t ih => cases c <;> simp [allocated, released, ih]

theorem ownOf_eq_some {x : Option cuda_event} {h : cudaEvent_t} :
    ownOf x = some h ↔ ∃ m, x = some m ∧ m.valid_ = true ∧ m.event_ = h := by
  cases x with
  | none => simp [ownOf]
  | some m =>
    by_cases hv : m.valid_ = true
    · simp [ownOf, hv]
    · simp [ownOf, hv]

theorem ownMap_update (objs : Addr → Option cuda_event) (a : Addr) (x : Option cuda_event) :
    ownMap (Function.update objs a x) = Function.update (ownMap objs) a (ownOf x) := by
  funext b
  by_cases hb : b = a
  · subst hb; simp [ownMap]
  · simp [ownMap, Function.update_noteq hb]

theorem OwnInv.alloc {own : Addr → Option cudaEvent_t} {A R : List cudaEvent_t}
    (inv : OwnInv own A R) {a : Addr} {h : cudaEvent_t} (ha : own a = none) (hh : h ∉ A) :
    OwnInv (Function.update own a (some h)) (A ++ [h]) R where
  owned_alloc := by
    intro b k hb
    by_cases hba : b = a
    · subst hba; simp at hb; simp [hb]
    · rw [Function.update_noteq hba] at hb
      exact List.mem_append_left _ (inv.owned_alloc b k hb)
  owned_live := by
    intro b k hb
    by_cases hba : b = a
    · subst hba; simp at hb; subst hb
      exact fun hr => hh (inv.rel_alloc _ hr)
    · rw [Function.update_noteq hba] at hb
      exact inv.owned_live b k hb
  owned_inj := by
    intro b c k hb hc
    by_cases hba : b = a <;> by_cases hca : c = a
    · rw [hba, hca]
    · subst hba; simp at hb; subst hb
      rw [Function.update_noteq hca] at hc
      exact absurd (inv.owned_alloc c _ hc) hh
    · subst hca; simp at hc; subst hc
      rw [Function.update_noteq hba] at hb
      exact absurd (inv.owned_alloc b _ hb) hh
    · rw [Function.update_noteq hba] at hb
      rw [Function.update_noteq hca] at hc
      exact inv.owned_inj b c k hb hc
  rel_nodup := inv.rel_nodup
  rel_alloc := fun k hk => List.mem_append_left _ (inv.rel_alloc k hk)
  alloc_cases := by
    intro k hk
    rcases List.mem_append.1 hk with hk | hk
    · rcases inv.alloc_cases k hk with hr | ⟨b, hb⟩
      · exact Or.inl hr
      · refine Or.inr ⟨b, ?_⟩
        have hba : b ≠ a := by
          intro e; rw [e, ha] at hb; exact Option.noConfusion hb
        rw [Function.update_noteq hba]; exact hb
    · have hk1 : k = h := by simpa using hk
      exact Or.inr ⟨a, by simp [hk1]⟩

theorem OwnInv.release {own : Addr → Option cudaEvent_t} {A R : List cudaEvent_t}
    (inv : OwnInv own A R) {a : Addr} {h : cudaEvent_t} (ha : own a = some h) :
    OwnInv (Function.update own a none) A (R ++ [h]) where
  owned_alloc := by
    intro b k hb
    by_cases hba : b = a
    · subst hba; simp at hb
    · rw [Function.update_noteq hba] at hb
      exact inv.owned_alloc b k hb
  owned_live := by
    intro b k hb
    by_cases hba : b = a
    · subst hba; simp at hb
    · rw [Function.update_noteq hba] at hb
      intro hr
      rcases List.mem_append.1 hr with hr | hr
      · exact inv.owned_live b k hb hr
      · have hkh : k = h := by simpa using hr
        subst hkh
        exact hba (inv.owned_inj b a k hb ha)
  owned_inj := by
    intro b c k hb hc
    by_cases hba : b = a
    · subst hba; simp at hb
    · by_cases hca : c = a
      · subst hca; simp at hc
      · rw [Function.update_noteq hba] at hb
        rw [Function.update_noteq hca] at hc
        exact inv.owned_inj b c k hb hc
  rel_nodup := by
    rw [List.nodup_append]
    refine ⟨inv.rel_nodup, List.nodup_singleton h, ?_⟩
    intro k hk hk1
    have hkh : k = h := by simpa using hk1
    subst hkh
    exact inv.owned_live a k ha hk
  rel_alloc := by
    intro k hk
    rcases List.mem_append.1 hk with hk | hk
    · exact inv.rel_alloc k hk
    · have hkh : k = h := by simpa using hk
      subst hkh
      exact inv.owned_alloc a k ha
  alloc_cases := by
    intro k hk
    rcases inv.alloc_cases k hk with hr | ⟨b, hb⟩
    · exact Or.inl (List.mem_append_left _ hr)
    · by_cases hba : b = a
      · subst hba
        rw [ha] at hb
        have hkh : h = k := Option.some.inj hb
        subst hkh
        exact Or.inl (List.mem_append_right _ (List.mem_singleton_self _))
      · exact Or.inr ⟨b, by rw [Function.update_noteq hba]; exact hb⟩

theorem OwnInv.transfer {own : Addr → Option cudaEvent_t} {A R : List cudaEvent_t}
    (inv : OwnInv own A R) {a b : Addr} (hab : a ≠ b) (ha : own a = none) :
    OwnInv (Function.update (Function.update own a (own b)) b none) A R := by
  have key : ∀ c k, Function.update (Function.update own a (own b)) b none c = some k →
      (c = a ∧ own b = some k) ∨ (c ≠ a ∧ c ≠ b ∧ own c = some k) := by
    intro c k hc
    by_cases hcb : c = b
    · subst hcb; simp at hc
    · rw [Function.update_noteq hcb] at hc
      by_cases hca : c = a
      · subst hca; simp at hc; exact Or.inl ⟨rfl, hc⟩
      · rw [Function.update_noteq hca] at hc
        exact Or.inr ⟨hca, hcb, hc⟩
  refine ⟨?_, ?_, ?_, inv.rel_nodup, inv.rel_alloc, ?_⟩
  · intro c k hc
    rcases key c k hc with ⟨_, h⟩ | ⟨_, _, h⟩
    · exact inv.owned_alloc b k h
    · exact inv.owned_alloc c k h
  · intro c k hc
    rcases key c k hc with ⟨_, h⟩ | ⟨_, _, h⟩
    · exact inv.owned_live b k h
    · exact inv.owned_live c k h
  · intro c d k hc hd
    rcases key c k hc with ⟨h1, h2⟩ | ⟨h1, h2, h3⟩ <;>
      rcases key d k hd with ⟨g1, g2⟩ | ⟨g1, g2, g3⟩
    · rw [h1, g1]
    · exact absurd (inv.owned_inj d b k g3 h2) g2
    · exact absurd (inv.owned_inj c b k h3 g2) h2
    · exact inv.owned_inj c d k h3 g3
  · intro k hk
    rcases inv.alloc_cases k hk with hr | ⟨c, hc⟩
    · exact Or.inl hr
    · refine Or.inr ?_
      by_cases hcb : c = b
      · subst hcb
        exact ⟨a, by rw [Function.update_noteq hab]; simp [hc]⟩
      · have hca : c ≠ a := by
          intro e; rw [e, ha] at hc; exact Option.noConfusion hc
        exact ⟨c, by rw [Function.update_noteq hcb, Function.update_noteq hca]; exact hc⟩

theorem inv_empty : World.empty.Inv := by
  refine ⟨?_, ?_, ?_, ?_, ?_, ?_⟩ <;>
    simp [World.Inv, World.empty, ownMap, ownOf, allocated, released]

theorem World.Inv.atMostOneOwner {w : World} (inv : w.Inv) : w.AtMostOneOwner := by
  refine ⟨?_, inv.rel_nodup, ?_⟩
  · intro a b ma mb ha hb hva hvb he
    have h1 : ownMap w.objs a = some ma.event_ := ownOf_eq_some.2 ⟨ma, ha, hva, rfl⟩
    have h2 : ownMap w.objs b = some ma.event_ := ownOf_eq_some.2 ⟨mb, hb, hvb, he.symm⟩
    exact inv.owned_inj a b _ h1 h2
  · intro hnone h hh
    rcases inv.alloc_cases h hh with hr | ⟨a, ha⟩
    · exact List.count_eq_one_of_mem inv.rel_nodup hr
    · simp [ownMap, hnone a, ownOf] at ha

/-! ### Effect of each operation on the ownership invariant -/

theorem inv_of_same {w w1 : World} (inv : w.Inv) (hobjs : w1.objs = w.objs)
    (hA : allocated w1.trace = allocated w.trace)
    (hR : released w1.trace = released w.trace) : w1.Inv := by
  unfold World.Inv at *
  rw [hobjs, hA, hR]; exact inv

theorem ctor_returned_inv {dev : Device} {this : Addr} {w w1 : World} (inv : w.Inv)
    (hstep : cuda_event.ctor dev this w = .returned w1 ())
    (hfresh : (allocated w1.trace).Nodup) : w1.Inv := by
  unfold cuda_event.ctor at hstep
  cases hfree : w.objs this with
  | some m => simp [hfree] at hstep
  | none =>
    by_cases hs : (dev.cudaEventCreateWithFlags w.trace cudaEventDisableTiming).1 = cudaSuccess
    · simp [hfree, hs, cuda_check_status_success] at hstep
      subst hstep
      simp only [allocated_append, allocated, if_true] at hfresh
      unfold World.Inv
      simp only [ownMap_update, allocated_append, released_append, allocated, released,
        if_true, List.append_nil, ownOf]
      refine inv.alloc (by simp [ownMap, hfree, ownOf]) ?_
      intro hmem
      exact (List.nodup_append.1 hfresh).2.2 hmem (List.mem_singleton_self _)
    · simp [hfree, cuda_check_status_failure hs] at hstep

theorem ctor_fatal_inv {dev : Device} {this : Addr} {w w1 : World} {s : cudaError_t}
    (inv : w.Inv) (hstep : cuda_event.ctor dev this w = .fatal w1 s) : w1.Inv := by
  unfold cuda_event.ctor at hstep
  cases hfree : w.objs this with
  | some m => simp [hfree] at hstep
  | none =>
    by_cases hs : (dev.cudaEventCreateWithFlags w.trace cudaEventDisableTiming).1 = cudaSuccess
    · simp [hfree, hs, cuda_check_status_success] at hstep
    · simp [hfree, cuda_check_status_failure hs] at hstep
      obtain ⟨hw, _⟩ := hstep
      subst hw
      refine inv_of_same inv rfl ?_ ?_
      · simp [allocated_append, allocated, hs]
      · simp [released_append, released]

theorem dtor_world_inv {dev : Device} {this : Addr} {w w1 : World} (inv : w.Inv)
    (hstep : (cuda_event.dtor dev this w).world? = some w1) : w1.Inv := by
  unfold cuda_event.dtor at hstep
  cases hlive : w.objs this with
  | none => simp [hlive, Outcome.world?] at hstep
  | some self =>
    by_cases hv : self.valid_ = true
    · have hown : ownMap w.objs this = some self.event_ := by simp [ownMap, hlive, ownOf, hv]
      have hw : w1 = ⟨Function.update w.objs this none,
          w.trace ++ [Call.cudaEventDestroy self.event_
            (dev.cudaEventDestroy w.trace self.event_)]⟩ := by
        by_cases hs : dev.cudaEventDestroy w.trace self.event_ = cudaSuccess
        · simp [hlive, hv, hs, cuda_check_status_success, Outcome.world?] at hstep
          rw [← hstep, hs]
        · simp [hlive, hv, cuda_check_status_failure hs, Outcome.world?] at hstep
          rw [← hstep]
      subst hw
      unfold World.Inv
      simp only [ownMap_update, allocated_append, released_append, allocated, released,
        List.append_nil, ownOf]
      exact inv.release hown
    · simp [hlive, hv, Outcome.world?] at hstep
      subst hstep
      unfold World.Inv
      have hown : ownMap w.objs this = none := by simp [ownMap, hlive, ownOf, hv]
      simp only [ownMap_update, ownOf]
      rw [← hown, Function.update_eq_self]
      exact inv

theorem move_ctor_inv {this other : Addr} {w w1 : World} (inv : w.Inv)
    (hstep : cuda_event.move_ctor this other w = .returned w1 ()) : w1.Inv := by
  unfold cuda_event.move_ctor at hstep
  cases hfree : w.objs this with
  | some m => simp [hfree] at hstep
  | none =>
    cases hlive : w.objs other with
    | none => simp [hfree, hlive] at hstep
    | some o =>
      simp [hfree, hlive] at hstep
      subst hstep
      have hne : this ≠ other := by
        intro e; rw [e, hlive] at hfree; exact Option.noConfusion hfree
      have hthis : ownMap w.objs this = none := by simp [ownMap, hfree, ownOf]
      have hoth : ownOf (some (⟨o.valid_, o.event_⟩ : cuda_event)) = ownMap w.objs other := by
        simp [ownMap, hlive, ownOf]
      unfold World.Inv
      simp only [ownMap_update]
      rw [hoth]
      exact inv.transfer hne hthis

theorem operator_assign_returned_inv {dev : Device} {this other : Addr} {w w1 : World}
    (inv : w.Inv) (hstep : cuda_event.operator_assign dev this other w = .returned w1 ()) :
    w1.Inv := by
  unfold cuda_event.operator_assign at hstep
  cases hthis : w.objs this with
  | none => simp [hthis] at hstep
  | some self =>
    cases hlive : w.objs other with
    | none => simp [hthis, hlive] at hstep
    | some o =>
      by_cases hne : this = other
      · simp [hthis, hlive, hne] at hstep
        subst hstep; exact inv
      · have hoth : ownOf (some (⟨o.valid_, o.event_⟩ : cuda_event)) = ownMap w.objs other := by
          simp [ownMap, hlive, ownOf]
        have hnone : ownOf (some (⟨false, o.event_⟩ : cuda_event)) = none := by simp [ownOf]
        by_cases hv : self.valid_ = true
        · by_cases hs : dev.cudaEventDestroy w.trace self.event_ = cudaSuccess
          · simp [hthis, hlive, hne, hv, hs, cuda_check_status_success] at hstep
            subst hstep
            have hown : ownMap w.objs this = some self.event_ := by
              simp [ownMap, hthis, ownOf, hv]
            have h1 := inv.release hown
            have h2 := h1.transfer hne (by simp)
            rw [Function.update_idem, Function.update_noteq (Ne.symm hne)] at h2
            unfold World.Inv
            simp only [ownMap_update, allocated_append, released_append, allocated, released,
              List.append_nil]
            rw [hoth, hnone]
            exact h2
          · simp [hthis, hlive, hne, hv, cuda_check_status_failure hs] at hstep
        · simp [hthis, hlive, hne, hv] at hstep
          subst hstep
          have hown : ownMap w.objs this = none := by simp [ownMap, hthis, ownOf, hv]
          unfold World.Inv
          simp only [ownMap_update]
          rw [hoth, hnone]
          exact inv.transfer hne hown

theorem operator_assign_fatal_atMostOneOwner {dev : Device} {this other : Addr}
    {w w1 : World} {s : cudaError_t} (inv : w.Inv)
    (hstep : cuda_event.operator_assign dev this other w = .fatal w1 s) :
    w1.AtMostOneOwner := by
  unfold cuda_event.operator_assign at hstep
  cases hthis : w.objs this with
  | none => simp [hthis] at hstep
  | some self =>
    cases hlive : w.objs other with
    | none => simp [hthis, hlive] at hstep
    | some o =>
      by_cases hne : this = other
      · simp [hthis, hlive, hne] at hstep
      · by_cases hv : self.valid_ = true
        · by_cases hs : dev.cudaEventDestroy w.trace self.event_ = cudaSuccess
          · simp [hthis, hlive, hne, hv, hs, cuda_check_status_success] at hstep
          · simp [hthis, hlive, hne, hv, cuda_check_status_failure hs] at hstep
            obtain ⟨hw, _⟩ := hstep
            subst hw
            have hown : ownMap w.objs this = some self.event_ := by
              simp [ownMap, hthis, ownOf, hv]
            refine ⟨inv.atMostOneOwner.1, ?_, ?_⟩
            · simp only [released_append, released]
              exact (inv.release hown).rel_nodup
            · intro hnone
              have := hnone this
              simp [hthis] at this
        · simp [hthis, hlive, hne, hv] at hstep

theorem wait_world_inv {dev : Device} {this : Addr} {w w1 : World} (inv : w.Inv)
    (hstep : (cuda_event.wait dev this w).world? = some w1) : w1.Inv := by
  unfold cuda_event.wait at hstep
  cases hlive : w.objs this with
  | none => simp [hlive, Outcome.world?] at hstep
  | some self =>
    by_cases hs : dev.cudaEventSynchronize w.trace self.event_ = cudaSuccess
    · simp [hlive, hs, cuda_check_status_success, Outcome.world?] at hstep
      subst hstep
      exact inv_of_same inv rfl (by simp [allocated_append, allocated])
        (by simp [released_append, released])
    · simp [hlive, cuda_check_status_failure hs, Outcome.world?] at hstep
      subst hstep
      exact inv_of_same inv rfl (by simp [allocated_append, allocated])
        (by simp [released_append, released])

theorem time_since_world_inv {dev : Device} {this other : Addr} {w w1 : World} (inv : w.Inv)
    (hstep : (cuda_event.time_since dev this other w).world? = some w1) : w1.Inv := by
  unfold cuda_event.time_since at hstep
  cases hthis : w.objs this with
  | none => simp [hthis, Outcome.world?] at hstep
  | some self =>
    cases hlive : w.objs other with
    | none => simp [hthis, hlive, Outcome.world?] at hstep
    | some o =>
      by_cases hs : (dev.cudaEventElapsedTime w.trace o.event self.event_).1 = cudaSuccess
      · simp [hthis, hlive, hs, cuda_check_status_success, Outcome.world?] at hstep
        subst hstep
        exact inv_of_same inv rfl (by simp [allocated_append, allocated])
          (by simp [released_append, released])
      · simp [hthis, hlive, cuda_check_status_failure hs, Outcome.world?] at hstep
        subst hstep
        exact inv_of_same inv rfl (by simp [allocated_append, allocated])
          (by simp [released_append, released])

theorem record_world_inv {dev : Device} {this : Addr} {stream : cudaStream_t} {w w1 : World}
    (inv : w.Inv) (hstep : (record dev this stream w).world? = some w1) : w1.Inv := by
  unfold record at hstep
  cases hlive : w.objs this with
  | none => simp [hlive, Outcome.world?] at hstep
  | some self =>
    simp [hlive, Outcome.world?] at hstep
    subst hstep
    exact inv_of_same inv rfl (by simp [allocated_append, allocated])
      (by simp [released_append, released])

/-! ### Programs keep the ownership invariant -/

theorem discard_world {α : Type} (o : Outcome α) : o.discard.world? = o.world? := by
  cases o <;> rfl

theorem world_of_returned {α : Type} {o : Outcome α} {w : World} {x : α}
    (h : o = .returned w x) : o.world? = some w := by
  rw [h]; rfl

theorem world_of_discard_returned {α : Type} {o : Outcome α} {w : World}
    (h : o.discard = .returned w ()) : o.world? = some w := by
  rw [← discard_world, h]; rfl

theorem world_of_discard_fatal {α : Type} {o : Outcome α} {w : World} {s : cudaError_t}
    (h : o.discard = .fatal w s) : o.world? = some w := by
  rw [← discard_world, h]; rfl

theorem move_ctor_not_fatal (this other : Addr) (w w1 : World) (s : cudaError_t) :
    cuda_event.move_ctor this other w ≠ .fatal w1 s := by
  unfold cuda_event.move_ctor
  cases h1 : w.objs this <;> cases h2 : w.objs other <;> simp

theorem step_returned_inv {dev : Device} {op : Op} {w w1 : World} (inv : w.Inv)
    (hstep : step dev op w = .returned w1 ()) (hfresh : (allocated w1.trace).Nodup) :
    w1.Inv := by
  cases op with
  | construct this => exact ctor_returned_inv inv hstep hfresh
  | moveConstruct this other => exact move_ctor_inv inv hstep
  | moveAssign this other => exact operator_assign_returned_inv inv hstep
  | destruct this => exact dtor_world_inv inv (world_of_returned hstep)
  | wait this => exact wait_world_inv inv (world_of_returned hstep)
  | timeSince this other => exact time_since_world_inv inv (world_of_discard_returned hstep)
  | record this stream => exact record_world_inv inv (world_of_discard_returned hstep)

theorem step_fatal_atMostOneOwner {dev : Device} {op : Op} {w w1 : World} {s : cudaError_t}
    (inv : w.Inv) (hstep : step dev op w = .fatal w1 s) : w1.AtMostOneOwner := by
  cases op with
  | construct this => exact (ctor_fatal_inv inv hstep).atMostOneOwner
  | moveConstruct this other =>
    exact absurd hstep (move_ctor_not_fatal this other w w1 s)
  | moveAssign this other => exact operator_assign_fatal_atMostOneOwner inv hstep
  | destruct this =>
    have hw : (cuda_event.dtor dev this w).world? = some w1 := by
      rw [show cuda_event.dtor dev this w = _ from hstep]; rfl
    exact (dtor_world_inv inv hw).atMostOneOwner
  | wait this =>
    have hw : (cuda_event.wait dev this w).world? = some w1 := by
      rw [show cuda_event.wait dev this w = _ from hstep]; rfl
    exact (wait_world_inv inv hw).atMostOneOwner
  | timeSince this other =>
    exact (time_since_world_inv inv (world_of_discard_fatal hstep)).atMostOneOwner
  | record this stream =>
    exact (record_world_inv inv (world_of_discard_fatal hstep)).atMostOneOwner

theorem step_trace {dev : Device} {op : Op} {w w1 : World}
    (hstep : (step dev op w).world? = some w1) : ∃ t, w1.trace = w.trace ++ t := by
  cases op <;>
    simp only [step, cuda_event.ctor, cuda_event.move_ctor, cuda_event.operator_assign,
      cuda_event.dtor, cuda_event.wait, cuda_event.time_since, record, discard_world] at hstep <;>
    (repeat' split at hstep) <;>
    simp only [Outcome.world?, Option.some.injEq, reduceCtorEq] at hstep <;>
    subst hstep <;>
    first
    | exact ⟨_, rfl⟩
    | exact ⟨[], (List.append_nil _).symm⟩

theorem run_trace {dev : Device} (ops : List Op) {w w1 : World}
    (hrun : (run dev ops w).world? = some w1) : ∃ t, w1.trace = w.trace ++ t := by
  induction ops generalizing w with
  | nil =>
    simp [run, Outcome.world?] at hrun
    exact ⟨[], by rw [hrun]; simp⟩
  | cons op ops ih =>
    rw [run] at hrun
    cases hstep : step dev op w with
    | returned w2 u =>
      rw [hstep] at hrun
      obtain ⟨t1, h1⟩ := step_trace (world_of_returned hstep)
      obtain ⟨t2, h2⟩ := ih hrun
      exact ⟨t1 ++ t2, by rw [h2, h1, List.append_assoc]⟩
    | fatal w2 s =>
      rw [hstep] at hrun
      simp [Outcome.world?] at hrun
      subst hrun
      exact step_trace (by rw [hstep]; rfl)
    | undefined =>
      rw [hstep] at hrun
      simp [Outcome.world?] at hrun

theorem nodup_allocated_of_extends {tr t : List Call} (h : (allocated (tr ++ t)).Nodup) :
    (allocated tr).Nodup := by
  rw [allocated_append] at h
  exact (List.nodup_append.1 h).1

theorem run_atMostOneOwner {dev : Device} (ops : List Op) {w w1 : World} (inv : w.Inv)
    (hrun : (run dev ops w).world? = some w1) (hfresh : (allocated w1.trace).Nodup) :
    w1.AtMostOneOwner := by
  induction ops generalizing w with
  | nil =>
    simp [run, Outcome.world?] at hrun
    subst hrun
    exact inv.atMostOneOwner
  | cons op ops ih =>
    rw [run] at hrun
    cases hstep : step dev op w with
    | returned w2 u =>
      rw [hstep] at hrun
      obtain ⟨t, ht⟩ := run_trace ops hrun
      have hfresh2 : (allocated w2.trace).Nodup := by
        rw [ht] at hfresh; exact nodup_allocated_of_extends hfresh
      exact ih (step_returned_inv inv hstep hfresh2) hrun
    | fatal w2 s =>
      rw [hstep] at hrun
      simp [Outcome.world?] at hrun
      subst hrun
      exact step_fatal_atMostOneOwner inv hstep
    | undefined =>
      rw [hstep] at hrun
      simp [Outcome.world?] at hrun

theorem run_take {dev : Device} (ops : List Op) {w w1 : World}
    (hrun : (run dev ops w).world? = some w1) (n : ℕ) :
    ∃ w2 t, (run dev (ops.take n) w).world? = some w2 ∧ w1.trace = w2.trace ++ t := by
  induction ops generalizing w n with
  | nil =>
    obtain ⟨t, ht⟩ := run_trace [] hrun
    exact ⟨w, t, by simp [run, Outcome.world?], ht⟩
  | cons op ops ih =>
    cases n with
    | zero =>
      obtain ⟨t, ht⟩ := run_trace (op :: ops) hrun
      exact ⟨w, t, by simp [run, Outcome.world?], ht⟩
    | succ n =>
      rw [run] at hrun
      rw [List.take_succ_cons, run]
      cases hstep : step dev op w with
      | returned w2 u =>
        rw [hstep] at hrun
        exact ih hrun n
      | fatal w2 s =>
        rw [hstep] at hrun
        exact ⟨w1, [], hrun, by simp⟩
      | undefined =>
        rw [hstep] at hrun
        simp [Outcome.world?] at hrun

/-! ### Effect of each operation on the objects -/

theorem ctor_objs {dev : Device} {this : Addr} {w w1 : World}
    (hstep : (cuda_event.ctor dev this w).world? = some w1) :
    w.objs this = none ∧ ∃ st h,
      w1.trace = w.trace ++ [Call.cudaEventCreateWithFlags cudaEventDisableTiming st h] ∧
      ((st = cudaSuccess ∧ w1.objs = Function.update w.objs this (some ⟨true, h⟩)) ∨
        (st ≠ cudaSuccess ∧ w1.objs = w.objs)) := by
  unfold cuda_event.ctor at hstep
  cases hfree : w.objs this with
  | some m => simp [hfree, Outcome.world?] at hstep
  | none =>
    refine ⟨rfl, (dev.cudaEventCreateWithFlags w.trace cudaEventDisableTiming).1,
      (dev.cudaEventCreateWithFlags w.trace cudaEventDisableTiming).2, ?_⟩
    by_cases hs : (dev.cudaEventCreateWithFlags w.trace cudaEventDisableTiming).1 = cudaSuccess
    · simp [hfree, hs, cuda_check_status_success, Outcome.world?] at hstep
      subst hstep
      exact ⟨by rw [hs], Or.inl ⟨hs, rfl⟩⟩
    · simp [hfree, cuda_check_status_failure hs, Outcome.world?] at hstep
      subst hstep
      exact ⟨rfl, Or.inr ⟨hs, rfl⟩⟩

theorem dtor_objs {dev : Device} {this : Addr} {w w1 : World}
    (hstep : (cuda_event.dtor dev this w).world? = some w1) :
    w1.objs = Function.update w.objs this none := by
  unfold cuda_event.dtor at hstep
  cases hlive : w.objs this with
  | none => simp [hlive, Outcome.world?] at hstep
  | some self =>
    by_cases hv : self.valid_ = true
    · by_cases hs : dev.cudaEventDestroy w.trace self.event_ = cudaSuccess
      · simp [hlive, hv, hs, cuda_check_status_success, Outcome.world?] at hstep
        subst hstep; rfl
      · simp [hlive, hv, cuda_check_status_failure hs, Outcome.world?] at hstep
        subst hstep; rfl
    · simp [hlive, hv, Outcome.world?] at hstep
      subst hstep; rfl

theorem move_ctor_objs {this other : Addr} {w w1 : World}
    (hstep : (cuda_event.move_ctor this other w).world? = some w1) :
    ∃ o, w.objs this = none ∧ w.objs other = some o ∧ this ≠ other ∧ w1.trace = w.trace ∧
      w1.objs = Function.update (Function.update w.objs this (some ⟨o.valid_, o.event_⟩))
        other (some ⟨false, o.event_⟩) := by
  unfold cuda_event.move_ctor at hstep
  cases hfree : w.objs this with
  | some m => simp [hfree, Outcome.world?] at hstep
  | none =>
    cases hlive : w.objs other with
    | none => simp [hfree, hlive, Outcome.world?] at hstep
    | some o =>
      simp [hfree, hlive, Outcome.world?] at hstep
      subst hstep
      have hne : this ≠ other := by
        intro e; rw [e, hlive] at hfree; exact Option.noConfusion hfree
      exact ⟨o, rfl, rfl, hne, rfl, rfl⟩

theorem operator_assign_objs {dev : Device} {this other : Addr} {w w1 : World}
    (hstep : (cuda_event.operator_assign dev this other w).world? = some w1) :
    ∃ self o, w.objs this = some self ∧ w.objs other = some o ∧
      ((w1.objs = w.objs ∧
          (this = other ∨ ∃ s, cuda_event.operator_assign dev this other w = .fatal w1 s)) ∨
        (this ≠ other ∧
          w1.objs = Function.update (Function.update w.objs this (some ⟨o.valid_, o.event_⟩))
            other (some ⟨false, o.event_⟩))) := by
  unfold cuda_event.operator_assign at hstep ⊢
  cases hthis : w.objs this with
  | none => simp [hthis, Outcome.world?] at hstep
  | some self =>
    cases hlive : w.objs other with
    | none => simp [hthis, hlive, Outcome.world?] at hstep
    | some o =>
      refine ⟨self, o, rfl, rfl, ?_⟩
      by_cases hne : this = other
      · simp [hthis, hlive, hne, Outcome.world?] at hstep
        subst hstep
        exact Or.inl ⟨rfl, Or.inl hne⟩
      · by_cases hv : self.valid_ = true
        · by_cases hs : dev.cudaEventDestroy w.trace self.event_ = cudaSuccess
          · simp [hthis, hlive, hne, hv, hs, cuda_check_status_success, Outcome.world?] at hstep
            subst hstep
            exact Or.inr ⟨hne, rfl⟩
          · simp [hthis, hlive, hne, hv, cuda_check_status_failure hs, Outcome.world?] at hstep
            subst hstep
            refine Or.inl ⟨rfl, Or.inr ⟨dev.cudaEventDestroy w.trace self.event_, ?_⟩⟩
            simp [hne, hv, cuda_check_status_failure hs]
        · simp [hthis, hlive, hne, hv, Outcome.world?] at hstep
          subst hstep
          exact Or.inr ⟨hne, rfl⟩

theorem wait_objs {dev : Device} {this : Addr} {w w1 : World}
    (hstep : (cuda_event.wait dev this w).world? = some w1) : w1.objs = w.objs := by
  unfold cuda_event.wait at hstep
  cases hlive : w.objs this with
  | none => simp [hlive, Outcome.world?] at hstep
  | some self =>
    by_cases hs : dev.cudaEventSynchronize w.trace self.event_ = cudaSuccess
    · simp [hlive, hs, cuda_check_status_success, Outcome.world?] at hstep
      subst hstep; rfl
    · simp [hlive, cuda_check_status_failure hs, Outcome.world?] at hstep
      subst hstep; rfl

theorem time_since_objs {dev : Device} {this other : Addr} {w w1 : World}
    (hstep : (cuda_event.time_since dev this other w).world? = some w1) : w1.objs = w.objs := by
  unfold cuda_event.time_since at hstep
  cases hthis : w.objs this with
  | none => simp [hthis, Outcome.world?] at hstep
  | some self =>
    cases hlive : w.objs other with
    | none => simp [hthis, hlive, Outcome.world?] at hstep
    | some o =>
      by_cases hs : (dev.cudaEventElapsedTime w.trace o.event self.event_).1 = cudaSuccess
      · simp [hthis, hlive, hs, cuda_check_status_success, Outcome.world?] at hstep
        subst hstep; rfl
      · simp [hthis, hlive, cuda_check_status_failure hs, Outcome.world?] at hstep
        subst hstep; rfl

theorem record_objs {dev : Device} {this : Addr} {stream : cudaStream_t} {w w1 : World}
    (hstep : (record dev this stream w).world? = some w1) : w1.objs = w.objs := by
  unfold record at hstep
  cases hlive : w.objs this with
  | none => simp [hlive, Outcome.world?] at hstep
  | some self =>
    simp [hlive, Outcome.world?] at hstep
    subst hstep; rfl

/-- What one operation does to an object that was live before it. -/
theorem step_objs_live {dev : Device} {op : Op} {w w1 : World} {a : Addr} {m : cuda_event}
    (hstep : (step dev op w).world? = some w1) (hlive : w.objs a = some m) :
    w1.objs a = some m ∨ (op = .destruct a ∧ w1.objs a = none) ∨
    (∃ this, this ≠ a ∧ (op = .moveConstruct this a ∨ op = .moveAssign this a) ∧
      w1.objs a = some ⟨false, m.event_⟩) ∨
    (∃ other o, other ≠ a ∧ op = .moveAssign a other ∧ w.objs other = some o ∧
      w1.objs a = some ⟨o.valid_, o.event_⟩) := by
  cases op with
  | construct this =>
    obtain ⟨hfree, st, h, _, hobjs | hobjs⟩ := ctor_objs hstep
    · have hne : a ≠ this := by
        intro e; rw [e, hfree] at hlive; exact Option.noConfusion hlive
      left; rw [hobjs.2, Function.update_noteq hne]; exact hlive
    · left; rw [hobjs.2]; exact hlive
  | moveConstruct this other =>
    obtain ⟨o, hfree, hoth, hne, _, hobjs⟩ := move_ctor_objs hstep
    by_cases hao : a = other
    · subst hao
      rw [hlive] at hoth
      have hmo : m = o := Option.some.inj hoth
      subst hmo
      right; right; left
      exact ⟨this, hne, Or.inl rfl, by rw [hobjs]; simp⟩
    · have hat : a ≠ this := by
        intro e; rw [e, hfree] at hlive; exact Option.noConfusion hlive
      left
      rw [hobjs, Function.update_noteq hao, Function.update_noteq hat]; exact hlive
  | moveAssign this other =>
    obtain ⟨self, o, hthis, hoth, hsame | ⟨hne, hobjs⟩⟩ := operator_assign_objs hstep
    · left; rw [hsame.1]; exact hlive
    · by_cases hao : a = other
      · subst hao
        rw [hlive] at hoth
        have hmo : m = o := Option.some.inj hoth
        subst hmo
        right; right; left
        exact ⟨this, hne, Or.inr rfl, by rw [hobjs]; simp⟩
      · by_cases hat : a = this
        · subst hat
          right; right; right
          exact ⟨other, o, Ne.symm hne, rfl, hoth, by
            rw [hobjs, Function.update_noteq hne]; simp⟩
        · left
          rw [hobjs, Function.update_noteq hao, Function.update_noteq hat]; exact hlive
  | destruct this =>
    have hobjs := dtor_objs hstep
    by_cases hat : a = this
    · subst hat
      right; left
      exact ⟨rfl, by rw [hobjs]; simp⟩
    · left; rw [hobjs, Function.update_noteq hat]; exact hlive
  | wait this => left; rw [wait_objs hstep]; exact hlive
  | timeSince this other =>
    left
    rw [time_since_objs (by rw [← discard_world]; exact hstep)]; exact hlive
  | record this stream =>
    left
    rw [record_objs (by rw [← discard_world]; exact hstep)]; exact hlive

/-- How an object can come to life at a free address. -/
theorem step_objs_new {dev : Device} {op : Op} {w w1 : World} {a : Addr} {m1 : cuda_event}
    (hstep : (step dev op w).world? = some w1) (hfree : w.objs a = none)
    (hnew : w1.objs a = some m1) :
    (op = .construct a ∧ m1.valid_ = true ∧
      w1.trace = w.trace ++
        [Call.cudaEventCreateWithFlags cudaEventDisableTiming cudaSuccess m1.event_]) ∨
    (∃ other o, op = .moveConstruct a other ∧ w.objs other = some o ∧
      m1 = ⟨o.valid_, o.event_⟩) := by
  cases op with
  | construct this =>
    obtain ⟨_, st, h, htr, hobjs | hobjs⟩ := ctor_objs hstep
    · by_cases hat : a = this
      · subst hat
        rw [hobjs.2] at hnew
        simp at hnew
        subst hnew
        left
        exact ⟨rfl, rfl, by rw [htr, hobjs.1]⟩
      · rw [hobjs.2, Function.update_noteq hat, hfree] at hnew
        exact Option.noConfusion hnew
    · rw [hobjs.2, hfree] at hnew
      exact Option.noConfusion hnew
  | moveConstruct this other =>
    obtain ⟨o, _, hoth, hne, _, hobjs⟩ := move_ctor_objs hstep
    have hao : a ≠ other := by
      intro e; rw [e, hoth] at hfree; exact Option.noConfusion hfree
    by_cases hat : a = this
    · subst hat
      rw [hobjs, Function.update_noteq hao] at hnew
      simp at hnew
      right
      exact ⟨other, o, rfl, hoth, hnew.symm⟩
    · rw [hobjs, Function.update_noteq hao, Function.update_noteq hat, hfree] at hnew
      exact Option.noConfusion hnew
  | moveAssign this other =>
    obtain ⟨self, o, hthis, hoth, hsame | ⟨hne, hobjs⟩⟩ := operator_assign_objs hstep
    · rw [hsame.1, hfree] at hnew
      exact Option.noConfusion hnew
    · have hao : a ≠ other := by
        intro e; rw [e, hoth] at hfree; exact Option.noConfusion hfree
      have hat : a ≠ this := by
        intro e; rw [e, hthis] at hfree; exact Option.noConfusion hfree
      rw [hobjs, Function.update_noteq hao, Function.update_noteq hat, hfree] at hnew
      exact Option.noConfusion hnew
  | destruct this =>
    have hobjs := dtor_objs hstep
    by_cases hat : a = this
    · subst hat
      rw [hobjs] at hnew
      simp at hnew
    · rw [hobjs, Function.update_noteq hat, hfree] at hnew
      exact Option.noConfusion hnew
  | wait this =>
    rw [wait_objs hstep, hfree] at hnew
    exact Option.noConfusion hnew
  | timeSince this other =>
    rw [time_since_objs (by rw [← discard_world]; exact hstep), hfree] at hnew
    exact Option.noConfusion hnew
  | record this stream =>
    rw [record_objs (by rw [← discard_world]; exact hstep), hfree] at hnew
    exact Option.noConfusion hnew

/-! ### Markers are allocated without timing -/

theorem lastFlags_flag {h : cudaEvent_t} {tr : List Call} {f : Nat}
    (hok : tr.all createFlagsOk = true) (hl : lastFlags h tr = some f) :
    f = cudaEventDisableTiming := by
  induction tr with
  | nil => simp [lastFlags] at hl
  | cons c t ih =>
    rw [List.all_cons, Bool.and_eq_true] at hok
    cases c with
    | cudaEventCreateWithFlags fl st e =>
      simp only [lastFlags] at hl
      cases hlt : lastFlags h t with
      | some g =>
        rw [hlt] at hl
        simp at hl
        subst hl
        exact ih hok.2 hlt
      | none =>
        rw [hlt] at hl
        simp at hl
        have h1 := hok.1
        simp [createFlagsOk] at h1
        rw [← hl.2, h1]
    | cudaEventDestroy e st => exact ih hok.2 (by simpa [lastFlags] using hl)
    | cudaEventSynchronize e st => exact ih hok.2 (by simpa [lastFlags] using hl)
    | cudaEventElapsedTime x y st ms => exact ih hok.2 (by simpa [lastFlags] using hl)
    | cudaEventRecord e st r => exact ih hok.2 (by simpa [lastFlags] using hl)

theorem lastFlags_of_allocated {h : cudaEvent_t} {tr : List Call}
    (hok : tr.all createFlagsOk = true) (hmem : h ∈ allocated tr) :
    lastFlags h tr = some cudaEventDisableTiming := by
  induction tr with
  | nil => simp [allocated] at hmem
  | cons c t ih =>
    have hok2 := hok
    rw [List.all_cons, Bool.and_eq_true] at hok2
    cases c with
    | cudaEventCreateWithFlags fl st e =>
      cases hlt : lastFlags h t with
      | some g =>
        have hg := lastFlags_flag hok2.2 hlt
        simp [lastFlags, hlt, hg]
      | none =>
        have h1 := hok2.1
        simp [createFlagsOk] at h1
        by_cases hs : st = cudaSuccess
        · simp [allocated, hs] at hmem
          rcases hmem with hmem | hmem
          · subst hmem
            simp [lastFlags, hlt, hs, h1]
          · rw [ih hok2.2 hmem] at hlt
            exact Option.noConfusion hlt
        · simp [allocated, hs] at hmem
          rw [ih hok2.2 hmem] at hlt
          exact Option.noConfusion hlt
    | cudaEventDestroy e st => simpa [lastFlags] using ih hok2.2 (by simpa [allocated] using hmem)
    | cudaEventSynchronize e st =>
      simpa [lastFlags] using ih hok2.2 (by simpa [allocated] using hmem)
    | cudaEventElapsedTime x y st ms =>
      simpa [lastFlags] using ih hok2.2 (by simpa [allocated] using hmem)
    | cudaEventRecord e st r => simpa [lastFlags] using ih hok2.2 (by simpa [allocated] using hmem)

theorem step_trace_flags {dev : Device} {op : Op} {w w1 : World}
    (hstep : (step dev op w).world? = some w1) :
    ∃ t, w1.trace = w.trace ++ t ∧ t.all createFlagsOk = true := by
  cases op <;>
    simp only [step, cuda_event.ctor, cuda_event.move_ctor, cuda_event.operator_assign,
      cuda_event.dtor, cuda_event.wait, cuda_event.time_since, record, discard_world] at hstep <;>
    (repeat' split at hstep) <;>
    simp only [Outcome.world?, Option.some.injEq, reduceCtorEq] at hstep <;>
    subst hstep <;>
    first
    | exact ⟨_, rfl, rfl⟩
    | exact ⟨[], (List.append_nil _).symm, rfl⟩

theorem inv_empty_timing : World.empty.TimingInv := by
  constructor
  · intro a m h; simp [World.empty] at h
  · rfl

theorem step_timingInv {dev : Device} {op : Op} {w w1 : World}
    (hstep : (step dev op w).world? = some w1) (inv : w.TimingInv) : w1.TimingInv := by
  obtain ⟨t, ht, hok⟩ := step_trace_flags hstep
  refine ⟨?_, by rw [ht, List.all_append, inv.2, hok]; rfl⟩
  intro a m1 hnew hv
  have hold : ∀ b m, w.objs b = some m → m.valid_ = true → m.event_ ∈ allocated w1.trace := by
    intro b m hb hm
    rw [ht, allocated_append]
    exact List.mem_append_left _ (inv.1 b m hb hm)
  cases hpre : w.objs a with
  | some m =>
    rcases step_objs_live hstep hpre with h | ⟨_, h⟩ | ⟨this, _, _, h⟩ | ⟨other, o, _, _, ho, h⟩
    · rw [h] at hnew
      have hmm : m = m1 := Option.some.inj hnew
      subst hmm
      exact hold a m hpre hv
    · rw [h] at hnew; exact Option.noConfusion hnew
    · rw [h] at hnew
      have hmm := Option.some.inj hnew
      subst hmm
      exact absurd hv (by simp)
    · rw [h] at hnew
      have hmm := Option.some.inj hnew
      subst hmm
      exact hold other o ho hv
  | none =>
    rcases step_objs_new hstep hpre hnew with ⟨_, _, htr⟩ | ⟨other, o, _, ho, hm⟩
    · rw [htr, allocated_append]
      simp [allocated]
    · subst hm
      exact hold other o ho hv

theorem run_timingInv {dev : Device} (ops : List Op) {w w1 : World}
    (hrun : (run dev ops w).world? = some w1) (inv : w.TimingInv) : w1.TimingInv := by
  induction ops generalizing w with
  | nil =>
    simp [run, Outcome.world?] at hrun
    subst hrun; exact inv
  | cons op ops ih =>
    rw [run] at hrun
    cases hstep : step dev op w with
    | returned w2 u =>
      rw [hstep] at hrun
      exact ih hrun (step_timingInv (world_of_returned hstep) inv)
    | fatal w2 s =>
      rw [hstep] at hrun
      simp [Outcome.world?] at hrun
      subst hrun
      exact step_timingInv (by rw [hstep]; rfl) inv
    | undefined =>
      rw [hstep] at hrun
      simp [Outcome.world?] at hrun

/-- C3: destructing a live marker issues exactly one release call, on the marker's own
handle, when the marker is valid, and no runtime call at all when it is invalid. -/
theorem dtor_release_calls (dev : Device) (this : Addr) (w : World) (self : cuda_event)
    (hlive : w.objs this = some self) :
    ∃ w1, (cuda_event.dtor dev this w).world? = some w1 ∧
      w1.trace = w.trace ++
        (if self.valid_ = true then
          [Call.cudaEventDestroy self.event_ (dev.cudaEventDestroy w.trace self.event_)]
        else []) := by
  unfold cuda_event.dtor
  rw [hlive]
  by_cases hv : self.valid_ = true
  · by_cases hs : dev.cudaEventDestroy w.trace self.event_ = cudaSuccess
    · simp [hv, hs, cuda_check_status_success, Outcome.world?]
    · simp [hv, cuda_check_status_failure hs, Outcome.world?]
  · simp [hv, Outcome.world?]

theorem dtor_release_calls_witness :
    sampleWorld.objs 0 = some ⟨true, 7⟩ ∧
    ∃ w1, (cuda_event.dtor (okDevice 0) 0 sampleWorld).world? = some w1 ∧
      w1.trace = [Call.cudaEventDestroy 7 cudaSuccess] :=
  ⟨rfl, dtor_release_calls (okDevice 0) 0 sampleWorld ⟨true, 7⟩ rfl⟩

/-- C2: move assignment issues exactly one release call, on the handle the destination
held before the assignment, exactly when the source is another object and the
destination was valid; otherwise it issues no runtime call.  When the release fails the
fields are not written, and self-move-assignment returns the state unchanged. -/
theorem operator_assign_release_calls (dev : Device) (this other : Addr) (w : World)
    (self o : cuda_event) (hthis : w.objs this = some self) (hother : w.objs other = some o) :
    (∃ w1, (cuda_event.operator_assign dev this other w).world? = some w1 ∧
      w1.trace = w.trace ++
        (if this ≠ other ∧ self.valid_ = true then
          [Call.cudaEventDestroy self.event_ (dev.cudaEventDestroy w.trace self.event_)]
        else []) ∧
      (∀ s, cuda_event.operator_assign dev this other w = .fatal w1 s → w1.objs = w.objs)) ∧
    (this = other → cuda_event.operator_assign dev this other w = .returned w ()) := by
  unfold cuda_event.operator_assign
  rw [hthis, hother]
  by_cases hne : this = other
  · simp [hne, Outcome.world?]
  · by_cases hv : self.valid_ = true
    · by_cases hs : dev.cudaEventDestroy w.trace self.event_ = cudaSuccess
      · simp [hne, hv, hs, cuda_check_status_success, Outcome.world?]
      · simp [hne, hv, cuda_check_status_failure hs, Outcome.world?]
    · simp [hne, hv, Outcome.world?]

theorem operator_assign_release_calls_witness :
    sampleWorld.objs 0 = some ⟨true, 7⟩ ∧ sampleWorld.objs 1 = some ⟨false, 9⟩ ∧
    (∃ w1, (cuda_event.operator_assign (okDevice 0) 0 1 sampleWorld).world? = some w1 ∧
      w1.trace = [Call.cudaEventDestroy 7 cudaSuccess] ∧
      (∀ s, cuda_event.operator_assign (okDevice 0) 0 1 sampleWorld = .fatal w1 s →
        w1.objs = sampleWorld.objs)) ∧
    cuda_event.operator_assign (okDevice 0) 0 0 sampleWorld = .returned sampleWorld () :=
  ⟨rfl, rfl,
    (operator_assign_release_calls (okDevice 0) 0 1 sampleWorld ⟨true, 7⟩ ⟨false, 9⟩
      rfl rfl).1,
    (operator_assign_release_calls (okDevice 0) 0 0 sampleWorld ⟨true, 7⟩ ⟨true, 7⟩
      rfl rfl).2 rfl⟩

/-- C1: a move construction of a new object from a live marker `other`, and a move
assignment to a live marker from another live marker `other`, leave the destination
with the handle and the validity flag `other` had, and leave `other` invalid.  The
move construction always returns; the move assignment returns unless the destination
was valid and the release of its old handle failed. -/
theorem move_transfers_handle_and_flag (dev : Device) (this other : Addr) (w : World)
    (o : cuda_event) (hother : w.objs other = some o) :
    (w.objs this = none →
      ∃ w1, cuda_event.move_ctor this other w = .returned w1 () ∧
        w1.objs this = some ⟨o.valid_, o.event_⟩ ∧ w1.objs other = some ⟨false, o.event_⟩) ∧
    (∀ self, w.objs this = some self → this ≠ other →
      (∃ w1, cuda_event.operator_assign dev this other w = .returned w1 () ∧
        w1.objs this = some ⟨o.valid_, o.event_⟩ ∧ w1.objs other = some ⟨false, o.event_⟩) ∨
      (self.valid_ = true ∧ dev.cudaEventDestroy w.trace self.event_ ≠ cudaSuccess ∧
        ∃ w1 s, cuda_event.operator_assign dev this other w = .fatal w1 s)) := by
  constructor
  · intro hfree
    have hne : this ≠ other := by
      intro h; rw [h, hother] at hfree; exact Option.noConfusion hfree
    unfold cuda_event.move_ctor
    rw [hfree, hother]
    simp [Function.update_noteq hne]
  · intro self hthis hne
    unfold cuda_event.operator_assign
    rw [hthis, hother]
    by_cases hv : self.valid_ = true
    · by_cases hs : dev.cudaEventDestroy w.trace self.event_ = cudaSuccess
      · left; simp [hne, hv, hs, cuda_check_status_success, Function.update_noteq hne]
      · right; simp [hne, hv, hs, cuda_check_status_failure hs]
    · left; simp [hne, hv, Function.update_noteq hne]

theorem move_transfers_handle_and_flag_witness :
    sampleWorld.objs 0 = some ⟨true, 7⟩ ∧ sampleWorld.objs 3 = none ∧
    (∃ w1, cuda_event.move_ctor 3 0 sampleWorld = .returned w1 () ∧
      w1.objs 3 = some ⟨true, 7⟩ ∧ w1.objs 0 = some ⟨false, 7⟩) ∧
    sampleWorld.objs 1 = some ⟨false, 9⟩ ∧ (1 : Addr) ≠ 0 ∧
    ((∃ w1, cuda_event.operator_assign (okDevice 0) 1 0 sampleWorld = .returned w1 () ∧
        w1.objs 1 = some ⟨true, 7⟩ ∧ w1.objs 0 = some ⟨false, 7⟩) ∨
      ((false = true) ∧
        (okDevice 0).cudaEventDestroy sampleWorld.trace 9 ≠ cudaSuccess ∧
        ∃ w1 s, cuda_event.operator_assign (okDevice 0) 1 0 sampleWorld = .fatal w1 s)) :=
  ⟨rfl, rfl,
    (move_transfers_handle_and_flag (okDevice 0) 3 0 sampleWorld ⟨true, 7⟩ rfl).1 rfl,
    rfl, by decide,
    (move_transfers_handle_and_flag (okDevice 0) 1 0 sampleWorld ⟨true, 7⟩ rfl).2
      ⟨false, 9⟩ rfl (by decide)⟩

/-! ### The binary64 quotient in `time_since` -/

theorem roundHalfEven_near {x : ℚ} (hx : 0 ≤ x) : |(roundHalfEven x : ℚ) - x| ≤ 1 / 2 := by
  have h1 : ((⌊x⌋₊ : ℕ) : ℚ) ≤ x := Nat.floor_le hx
  have h2 : x < (⌊x⌋₊ : ℕ) + 1 := Nat.lt_floor_add_one x
  unfold roundHalfEven
  simp only
  rw [abs_le]
  split_ifs with c1 c2 c3
  · constructor <;> linarith
  · push_cast; constructor <;> linarith
  · constructor <;> linarith
  · push_cast; constructor <;> linarith

theorem binary64_neg (q : ℚ) : binary64 (-q) = -binary64 q := by
  unfold binary64
  by_cases h0 : q = 0
  · simp [h0]
  · have h0' : -q ≠ 0 := neg_ne_zero.mpr h0
    simp only [h0, h0', if_false, abs_neg]
    rcases lt_or_gt_of_ne h0 with h | h
    · have : ¬ (-q < 0) := by linarith
      simp [h, this]
    · have h1 : -q < 0 := by linarith
      have h2 : ¬ (q < 0) := by linarith
      simp [h1, h2]

theorem binary64_of_pos {q : ℚ} (hq : 0 < q) (hlo : (2 : ℚ) ^ (-1022 : ℤ) ≤ q) :
    binary64 q = (roundHalfEven (q / 2 ^ (Int.log 2 q - 52)) : ℚ) * 2 ^ (Int.log 2 q - 52) := by
  have hL : (-1022 : ℤ) ≤ Int.log 2 q := by
    rw [← Int.zpow_le_iff_le_log (by norm_num) hq]
    simpa using hlo
  unfold binary64
  have h0 : q ≠ 0 := ne_of_gt hq
  have hneg : ¬ q < 0 := not_lt.mpr hq.le
  have hk : max (Int.log 2 q - 52) (-1074) = Int.log 2 q - 52 := max_eq_left (by linarith)
  simp only [h0, hneg, if_false, abs_of_pos hq, hk]

theorem scaled_bounds {q : ℚ} (hq : 0 < q) :
    (2 : ℚ) ^ 52 ≤ q / 2 ^ (Int.log 2 q - 52) ∧ q / 2 ^ (Int.log 2 q - 52) < 2 ^ 53 := by
  have h1 : (2 : ℚ) ^ (Int.log 2 q) ≤ q := by
    simpa using Int.zpow_log_le_self (b := 2) (by norm_num) hq
  have h2 : q < (2 : ℚ) ^ (Int.log 2 q + 1) := by
    simpa using Int.lt_zpow_succ_log_self (b := 2) (by norm_num) q
  have hpos : (0 : ℚ) < 2 ^ (Int.log 2 q - 52) := zpow_pos (by norm_num) _
  have e1 : (2 : ℚ) ^ (Int.log 2 q) = 2 ^ 52 * 2 ^ (Int.log 2 q - 52) := by
    rw [show ((2 : ℚ) ^ 52) = (2 : ℚ) ^ (52 : ℤ) by norm_cast, ← zpow_add₀ (by norm_num)]
    congr 1; ring
  have e2 : (2 : ℚ) ^ (Int.log 2 q + 1) = 2 ^ 53 * 2 ^ (Int.log 2 q - 52) := by
    rw [show ((2 : ℚ) ^ 53) = (2 : ℚ) ^ (53 : ℤ) by norm_cast, ← zpow_add₀ (by norm_num)]
    congr 1; ring
  constructor
  · rw [le_div_iff₀ hpos, ← e1]; exact h1
  · rw [div_lt_iff₀ hpos, ← e2]; exact h2

theorem binary64_pos_spec {q : ℚ} (hq : 0 < q) (hlo : (2 : ℚ) ^ (-1022 : ℤ) ≤ q)
    (hhi : q < (2 : ℚ) ^ (1023 : ℤ)) :
    0 < binary64 q ∧ |binary64 q - q| ≤ q / 2 ^ 53 ∧ IsBinary64 (binary64 q) := by
  have hL : (-1022 : ℤ) ≤ Int.log 2 q := by
    rw [← Int.zpow_le_iff_le_log (by norm_num) hq]
    simpa using hlo
  have hU : Int.log 2 q < 1023 := by
    rw [← Int.lt_zpow_iff_log_lt (by norm_num) hq]
    simpa using hhi
  rw [binary64_of_pos hq hlo]
  obtain ⟨hs1, hs2⟩ := scaled_bounds hq
  set k : ℤ := Int.log 2 q - 52 with hk
  set s : ℚ := q / 2 ^ k with hs
  have hpos : (0 : ℚ) < 2 ^ k := zpow_pos (by norm_num) _
  have hs0 : 0 ≤ s := le_trans (by positivity) hs1
  have hnear := roundHalfEven_near hs0
  rw [abs_le] at hnear
  have hq_eq : q = s * 2 ^ k := by rw [hs, div_mul_cancel₀ _ (ne_of_gt hpos)]
  have hn_lo : (2 : ℚ) ^ 52 - 1 / 2 ≤ (roundHalfEven s : ℚ) := by linarith
  have hn_hi : (roundHalfEven s : ℚ) < 2 ^ 53 + 1 / 2 := by linarith
  have hn_pos : (0 : ℚ) < (roundHalfEven s : ℚ) := by
    have : (0 : ℚ) < 2 ^ 52 - 1 / 2 := by norm_num
    linarith
  refine ⟨mul_pos hn_pos hpos, ?_, ?_⟩
  · have e : (roundHalfEven s : ℚ) * 2 ^ k - q = ((roundHalfEven s : ℚ) - s) * 2 ^ k := by
      rw [hq_eq]; ring
    rw [e, abs_mul, abs_of_pos hpos]
    have h1 : |(roundHalfEven s : ℚ) - s| ≤ 1 / 2 := abs_le.mpr hnear
    have h2 : (2 : ℚ) ^ k * 2 ^ 52 ≤ q := by
      rw [hq_eq]; nlinarith [hs1, hpos]
    calc |(roundHalfEven s : ℚ) - s| * 2 ^ k ≤ 1 / 2 * 2 ^ k :=
          mul_le_mul_of_nonneg_right h1 hpos.le
      _ = (2 ^ k * 2 ^ 52) / 2 ^ 53 := by ring
      _ ≤ q / 2 ^ 53 := by
          apply div_le_div_of_nonneg_right h2 (by positivity)
  · have hn_le : roundHalfEven s ≤ 2 ^ 53 := by
      have : (roundHalfEven s : ℚ) < ((2 ^ 53 + 1 : ℕ) : ℚ) := by push_cast; linarith
      have := Nat.cast_lt.mp this
      omega
    rcases Nat.lt_or_ge (roundHalfEven s) (2 ^ 53) with hlt | hge
    · refine ⟨roundHalfEven s, k, hlt, by omega, by omega, ?_⟩
      rw [abs_of_pos (mul_pos hn_pos hpos)]
    · have hEq : roundHalfEven s = 2 ^ 53 := le_antisymm hn_le hge
      refine ⟨2 ^ 52, k + 1, by norm_num, by omega, by omega, ?_⟩
      rw [abs_of_pos (mul_pos hn_pos hpos), hEq, zpow_add_one₀ (by norm_num)]
      push_cast; ring

theorem binary64_zero : binary64 0 = 0 := by
  simp [binary64]

theorem isBinary64_zero : IsBinary64 0 :=
  ⟨0, 0, by norm_num, by norm_num, by norm_num, by simp⟩

theorem isBinary64_neg {x : ℚ} (h : IsBinary64 x) : IsBinary64 (-x) := by
  obtain ⟨m, e, h1, h2, h3, h4⟩ := h
  exact ⟨m, e, h1, h2, h3, by rw [abs_neg]; exact h4⟩

theorem binary32_quotient_range {ms : ℚ} (h32 : IsBinary32 ms) (hpos : 0 < ms) :
    (2 : ℚ) ^ (-1022 : ℤ) ≤ ms / 1000 ∧ ms / 1000 < (2 : ℚ) ^ (1023 : ℤ) := by
  obtain ⟨m, e, hm, he1, he2, habs⟩ := h32
  rw [abs_of_pos hpos] at habs
  have h2e : (0 : ℚ) < 2 ^ e := zpow_pos (by norm_num) _
  have hm1 : 1 ≤ m := by
    rcases Nat.eq_zero_or_pos m with h0 | h0
    · rw [h0] at habs
      simp at habs
      exact absurd habs (ne_of_gt hpos)
    · exact h0
  have hmq : (1 : ℚ) ≤ m := by exact_mod_cast hm1
  have hmq2 : (m : ℚ) < 2 ^ 24 := by exact_mod_cast hm
  have hlo : (2 : ℚ) ^ (-149 : ℤ) ≤ 2 ^ e := zpow_le_zpow_right₀ (by norm_num) he1
  have hhi : (2 : ℚ) ^ e ≤ 2 ^ (104 : ℤ) := zpow_le_zpow_right₀ (by norm_num) he2
  have h1 : (2 : ℚ) ^ (-149 : ℤ) ≤ ms := by
    rw [habs]; nlinarith
  have h2 : ms < (2 : ℚ) ^ (128 : ℤ) := by
    rw [habs]
    have e128 : (2 : ℚ) ^ (128 : ℤ) = 2 ^ 24 * 2 ^ (104 : ℤ) := by
      rw [show ((2 : ℚ) ^ 24) = (2 : ℚ) ^ (24 : ℤ) by norm_cast, ← zpow_add₀ (by norm_num)]
      norm_num
    rw [e128]
    calc (m : ℚ) * 2 ^ e ≤ m * 2 ^ (104 : ℤ) := mul_le_mul_of_nonneg_left hhi (by linarith)
      _ < 2 ^ 24 * 2 ^ (104 : ℤ) := mul_lt_mul_of_pos_right hmq2 (zpow_pos (by norm_num) _)
  have e159 : (2 : ℚ) ^ (-149 : ℤ) = 2 ^ (-1022 : ℤ) * 2 ^ (873 : ℤ) := by
    rw [← zpow_add₀ (by norm_num)]; norm_num
  have e1023 : (2 : ℚ) ^ (1023 : ℤ) = 2 ^ (128 : ℤ) * 2 ^ (895 : ℤ) := by
    rw [← zpow_add₀ (by norm_num)]; norm_num
  have hbig : (1000 : ℚ) ≤ 2 ^ (873 : ℤ) := by
    have : (2 : ℚ) ^ (10 : ℤ) ≤ 2 ^ (873 : ℤ) := zpow_le_zpow_right₀ (by norm_num) (by norm_num)
    have h10 : (2 : ℚ) ^ (10 : ℤ) = 1024 := by norm_num
    linarith
  have hp1022 : (0 : ℚ) < 2 ^ (-1022 : ℤ) := zpow_pos (by norm_num) _
  have hp128 : (0 : ℚ) < 2 ^ (128 : ℤ) := zpow_pos (by norm_num) _
  have hone : (1 : ℚ) ≤ 2 ^ (895 : ℤ) := one_le_zpow₀ (by norm_num) (by norm_num)
  constructor
  · rw [le_div_iff₀ (by norm_num)]
    calc (2 : ℚ) ^ (-1022 : ℤ) * 1000 ≤ 2 ^ (-1022 : ℤ) * 2 ^ (873 : ℤ) :=
          mul_le_mul_of_nonneg_left hbig hp1022.le
      _ = 2 ^ (-149 : ℤ) := e159.symm
      _ ≤ ms := h1
  · rw [div_lt_iff₀ (by norm_num), e1023]
    calc ms < 2 ^ (128 : ℤ) := h2
      _ = 2 ^ (128 : ℤ) * 1 := (mul_one _).symm
      _ ≤ 2 ^ (128 : ℤ) * 2 ^ (895 : ℤ) := mul_le_mul_of_nonneg_left hone hp128.le
      _ ≤ 2 ^ (128 : ℤ) * 2 ^ (895 : ℤ) * 1000 := by nlinarith [mul_pos hp128 (lt_of_lt_of_le one_pos hone)]

theorem isBinary32_neg {x : ℚ} (h : IsBinary32 x) : IsBinary32 (-x) := by
  obtain ⟨m, e, h1, h2, h3, h4⟩ := h
  exact ⟨m, e, h1, h2, h3, by rw [abs_neg]; exact h4⟩

/-- The binary64 quotient of a `float` by 1000: a `double`, within a relative error of
`2 ^ (-53)` of the exact quotient, and of the sign of the `float`. -/
theorem binary64_quotient_spec {ms : ℚ} (h32 : IsBinary32 ms) :
    IsBinary64 (binary64 (ms / 1000)) ∧
    |binary64 (ms / 1000) - ms / 1000| ≤ |ms / 1000| / 2 ^ 53 ∧
    (binary64 (ms / 1000) < 0 ↔ ms < 0) ∧ (binary64 (ms / 1000) = 0 ↔ ms = 0) ∧
    (0 < binary64 (ms / 1000) ↔ 0 < ms) := by
  rcases lt_trichotomy ms 0 with hneg | hzero | hpos
  · have hpos : 0 < -ms := by linarith
    obtain ⟨hlo, hhi⟩ := binary32_quotient_range (isBinary32_neg h32) hpos
    have hq : 0 < -ms / 1000 := by positivity
    obtain ⟨h1, h2, h3⟩ := binary64_pos_spec hq hlo hhi
    have e : ms / 1000 = -(-ms / 1000) := by ring
    have hb : binary64 (ms / 1000) = -binary64 (-ms / 1000) := by
      rw [e, binary64_neg]
    have hbneg : binary64 (ms / 1000) < 0 := by rw [hb]; linarith
    refine ⟨by rw [hb]; exact isBinary64_neg h3, ?_, ?_, ?_, ?_⟩
    · have habs : |ms / 1000| = -ms / 1000 := by
        rw [abs_of_neg (by linarith)]; ring
      rw [habs, hb]
      have : -binary64 (-ms / 1000) - ms / 1000 = -(binary64 (-ms / 1000) - -ms / 1000) := by
        ring
      rw [this, abs_neg]
      exact h2
    · exact ⟨fun _ => hneg, fun _ => hbneg⟩
    · exact ⟨fun h => absurd h (ne_of_lt hbneg), fun h => absurd h (ne_of_lt hneg)⟩
    · exact ⟨fun h => absurd h (not_lt.mpr hbneg.le), fun h => absurd h (not_lt.mpr hneg.le)⟩
  · subst hzero
    simp [binary64_zero, isBinary64_zero]
  · obtain ⟨hlo, hhi⟩ := binary32_quotient_range h32 hpos
    have hq : 0 < ms / 1000 := by positivity
    obtain ⟨h1, h2, h3⟩ := binary64_pos_spec hq hlo hhi
    refine ⟨h3, ?_, ?_, ?_, ?_⟩
    · rw [abs_of_pos hq]; exact h2
    · exact ⟨fun h => absurd h (not_lt.mpr h1.le), fun h => absurd h (not_lt.mpr hpos.le)⟩
    · exact ⟨fun h => absurd h (ne_of_gt h1), fun h => absurd h (ne_of_gt hpos)⟩
    · exact ⟨fun _ => hpos, fun _ => h1⟩

/-- The quotient of the `float` 1 by 1000 in binary64: `0x1.0624dd2f1a9fcp-10`. -/
theorem binary64_one_thousandth :
    binary64 ((1 : ℚ) / 1000) = (1152921504606847 : ℚ) / 1152921504606846976 := by
  have hq : (0 : ℚ) < 1 / 1000 := by norm_num
  have hlo : (2 : ℚ) ^ (-1022 : ℤ) ≤ 1 / 1000 := by
    have h1 : (2 : ℚ) ^ (-1022 : ℤ) ≤ 2 ^ (-10 : ℤ) :=
      zpow_le_zpow_right₀ (by norm_num) (by norm_num)
    have h2 : (2 : ℚ) ^ (-10 : ℤ) = 1 / 1024 := by norm_num
    rw [h2] at h1
    exact le_trans h1 (by norm_num)
  have hlog : Int.log 2 ((1 : ℚ) / 1000) = -10 := by
    apply le_antisymm
    · have : Int.log 2 ((1 : ℚ) / 1000) < -9 := by
        rw [← Int.lt_zpow_iff_log_lt (by norm_num) hq]
        norm_num
      omega
    · rw [← Int.zpow_le_iff_le_log (by norm_num) hq]
      norm_num
  rw [binary64_of_pos hq hlo, hlog]
  have hscaled : (1 : ℚ) / 1000 / 2 ^ ((-10 : ℤ) - 52) = 4611686018427387904 / 1000 := by
    norm_num
  have hfloor : ⌊(4611686018427387904 : ℚ) / 1000⌋₊ = 4611686018427387 := by
    rw [Nat.floor_eq_iff (by norm_num)]
    constructor <;> norm_num
  have hround : roundHalfEven ((4611686018427387904 : ℚ) / 1000) = 4611686018427388 := by
    unfold roundHalfEven
    simp only [hfloor]
    norm_num
  rw [hscaled, hround]
  norm_num

/-- C5: `a.time_since(other)` issues one elapsed-time query with the handle of `other`
as start marker and the handle of `a` as end marker; when the query succeeds it returns
the milliseconds the runtime answered divided by 1000 in `double` arithmetic, with no
branch on the value.  For every `float` value of the milliseconds the result is a
`double` within a relative error of `2 ^ (-53)` of the exact quotient, and it is
negative, zero or positive exactly when the milliseconds are: the sign is kept and
nothing is clamped. -/
theorem time_since_queries_other_then_this (dev : Device) (this other : Addr) (w : World)
    (self o : cuda_event) (hthis : w.objs this = some self) (hother : w.objs other = some o) :
    let status := (dev.cudaEventElapsedTime w.trace o.event_ self.event_).1
    let ms := (dev.cudaEventElapsedTime w.trace o.event_ self.event_).2
    (∃ w1, (cuda_event.time_since dev this other w).world? = some w1 ∧
      w1.trace = w.trace ++ [Call.cudaEventElapsedTime o.event_ self.event_ status ms]) ∧
    (status = cudaSuccess →
      ∃ w1, cuda_event.time_since dev this other w = .returned w1 (binary64 (ms / 1000))) ∧
    (IsBinary32 ms →
      IsBinary64 (binary64 (ms / 1000)) ∧
      |binary64 (ms / 1000) - ms / 1000| ≤ |ms / 1000| / 2 ^ 53 ∧
      (binary64 (ms / 1000) < 0 ↔ ms < 0) ∧ (binary64 (ms / 1000) = 0 ↔ ms = 0) ∧
      (0 < binary64 (ms / 1000) ↔ 0 < ms)) := by
  intro status ms
  refine ⟨?_, ?_, fun h32 => binary64_quotient_spec h32⟩
  · unfold cuda_event.time_since
    rw [hthis, hother]
    by_cases hs : (dev.cudaEventElapsedTime w.trace o.event_ self.event_).1 = cudaSuccess
    · simp [cuda_event.event, hs, cuda_check_status_success, Outcome.world?, status, ms]
    · simp [cuda_event.event, cuda_check_status_failure hs, Outcome.world?, status, ms]
  · intro hs
    unfold cuda_event.time_since
    rw [hthis, hother]
    have hs1 : (dev.cudaEventElapsedTime w.trace o.event_ self.event_).1 = cudaSuccess := hs
    simp [cuda_event.event, hs1, cuda_check_status_success, ms]

theorem time_since_queries_other_then_this_witness :
    sampleWorld.objs 0 = some ⟨true, 7⟩ ∧ sampleWorld.objs 2 = some ⟨true, 5⟩ ∧
    IsBinary32 1 ∧
    (∃ w1, (cuda_event.time_since (okDevice 1) 0 2 sampleWorld).world? = some w1 ∧
      w1.trace = [Call.cudaEventElapsedTime 5 7 cudaSuccess 1]) ∧
    (∃ w1, cuda_event.time_since (okDevice 1) 0 2 sampleWorld =
      .returned w1 ((1152921504606847 : ℚ) / 1152921504606846976)) ∧
    (IsBinary64 (binary64 ((1 : ℚ) / 1000)) ∧
      |binary64 ((1 : ℚ) / 1000) - 1 / 1000| ≤ |(1 : ℚ) / 1000| / 2 ^ 53 ∧
      (binary64 ((1 : ℚ) / 1000) < 0 ↔ (1 : ℚ) < 0) ∧
      (binary64 ((1 : ℚ) / 1000) = 0 ↔ (1 : ℚ) = 0) ∧
      (0 < binary64 ((1 : ℚ) / 1000) ↔ (0 : ℚ) < 1)) := by
  have h32 : IsBinary32 1 := ⟨1, 0, by norm_num, by norm_num, by norm_num, by simp⟩
  have h := time_since_queries_other_then_this (okDevice 1) 0 2 sampleWorld ⟨true, 7⟩
    ⟨true, 5⟩ rfl rfl
  refine ⟨rfl, rfl, h32, h.1, ?_, h.2.2 h32⟩
  obtain ⟨w1, hw1⟩ := h.2.1 rfl
  exact ⟨w1, by rw [hw1]; exact congrArg _ binary64_one_thousandth⟩

/-- C8: construction, `wait()` and `time_since()` issue their runtime call first and
escalate a fatal failure exactly when that call answers a status other than success.
A failed allocation leaves every object as it was, so no marker is marked valid; a
successful allocation yields a valid marker holding the new handle; a failed
elapsed-time query returns no number; `wait()` never changes an object. -/
theorem fatal_iff_runtime_call_fails (dev : Device) (w : World) :
    (∀ this, w.objs this = none →
      let r := dev.cudaEventCreateWithFlags w.trace cudaEventDisableTiming
      ∃ w1, (cuda_event.ctor dev this w).world? = some w1 ∧
        w1.trace = w.trace ++ [Call.cudaEventCreateWithFlags cudaEventDisableTiming r.1 r.2] ∧
        ((∃ s, cuda_event.ctor dev this w = .fatal w1 s) ↔ r.1 ≠ cudaSuccess) ∧
        (r.1 ≠ cudaSuccess → w1.objs = w.objs) ∧
        (r.1 = cudaSuccess → cuda_event.ctor dev this w = .returned w1 () ∧
          w1.objs = Function.update w.objs this (some ⟨true, r.2⟩))) ∧
    (∀ this self, w.objs this = some self →
      let status := dev.cudaEventSynchronize w.trace self.event_
      ∃ w1, (cuda_event.wait dev this w).world? = some w1 ∧
        w1.trace = w.trace ++ [Call.cudaEventSynchronize self.event_ status] ∧
        ((∃ s, cuda_event.wait dev this w = .fatal w1 s) ↔ status ≠ cudaSuccess) ∧
        (status = cudaSuccess → cuda_event.wait dev this w = .returned w1 ()) ∧
        w1.objs = w.objs) ∧
    (∀ this other self o, w.objs this = some self → w.objs other = some o →
      let r := dev.cudaEventElapsedTime w.trace o.event_ self.event_
      ∃ w1, (cuda_event.time_since dev this other w).world? = some w1 ∧
        w1.trace = w.trace ++ [Call.cudaEventElapsedTime o.event_ self.event_ r.1 r.2] ∧
        ((∃ s, cuda_event.time_since dev this other w = .fatal w1 s) ↔ r.1 ≠ cudaSuccess) ∧
        (r.1 ≠ cudaSuccess → ∀ w2 x, cuda_event.time_since dev this other w ≠ .returned w2 x) ∧
        (r.1 = cudaSuccess → ∃ x, cuda_event.time_since dev this other w = .returned w1 x) ∧
        w1.objs = w.objs) := by
  refine ⟨?_, ?_, ?_⟩
  · intro this hfree r
    unfold cuda_event.ctor
    rw [hfree]
    by_cases hs : (dev.cudaEventCreateWithFlags w.trace cudaEventDisableTiming).1 = cudaSuccess
    · simp [hs, cuda_check_status_success, Outcome.world?, r]
    · simp [hs, cuda_check_status_failure hs, Outcome.world?, r]
  · intro this self hlive status
    unfold cuda_event.wait
    rw [hlive]
    by_cases hs : dev.cudaEventSynchronize w.trace self.event_ = cudaSuccess
    · simp [hs, cuda_check_status_success, Outcome.world?, status]
    · simp [hs, cuda_check_status_failure hs, Outcome.world?, status]
  · intro this other self o hthis hother r
    unfold cuda_event.time_since
    rw [hthis, hother]
    by_cases hs : (dev.cudaEventElapsedTime w.trace o.event_ self.event_).1 = cudaSuccess
    · simp [cuda_event.event, hs, cuda_check_status_success, Outcome.world?, r]
    · simp [cuda_event.event, hs, cuda_check_status_failure hs, Outcome.world?, r]

theorem fatal_iff_runtime_call_fails_witness :
    sampleWorld.objs 3 = none ∧ sampleWorld.objs 0 = some ⟨true, 7⟩ ∧
    sampleWorld.objs 2 = some ⟨true, 5⟩ ∧
    (∃ w1 s, cuda_event.ctor (failDevice 30) 3 sampleWorld = .fatal w1 s ∧
      w1.objs = sampleWorld.objs) ∧
    (∃ w1, cuda_event.ctor (okDevice 0) 3 sampleWorld = .returned w1 () ∧
      w1.objs 3 = some ⟨true, 0⟩) ∧
    (∃ w1 s, cuda_event.wait (failDevice 30) 0 sampleWorld = .fatal w1 s) ∧
    (∃ w1, cuda_event.wait (okDevice 0) 0 sampleWorld = .returned w1 () ∧
      w1.objs = sampleWorld.objs) ∧
    (∃ w1 s, cuda_event.time_since (failDevice 30) 0 2 sampleWorld = .fatal w1 s) := by
  refine ⟨rfl, rfl, rfl, ?_, ?_, ?_, ?_, ?_⟩
  · obtain ⟨w1, _, _, hiff, hobjs, _⟩ :=
      (fatal_iff_runtime_call_fails (failDevice 30) sampleWorld).1 3 rfl
    obtain ⟨s, hs⟩ := hiff.2 (by decide)
    exact ⟨w1, s, hs, hobjs (by decide)⟩
  · obtain ⟨w1, _, _, _, _, hok⟩ :=
      (fatal_iff_runtime_call_fails (okDevice 0) sampleWorld).1 3 rfl
    have h := hok rfl
    exact ⟨w1, h.1, by rw [h.2]; rfl⟩
  · obtain ⟨w1, _, _, hiff, _⟩ :=
      (fatal_iff_runtime_call_fails (failDevice 30) sampleWorld).2.1 0 ⟨true, 7⟩ rfl
    obtain ⟨s, hs⟩ := hiff.2 (by decide)
    exact ⟨w1, s, hs⟩
  · obtain ⟨w1, _, _, _, hok, hobjs⟩ :=
      (fatal_iff_runtime_call_fails (okDevice 0) sampleWorld).2.1 0 ⟨true, 7⟩ rfl
    exact ⟨w1, hok rfl, hobjs⟩
  · obtain ⟨w1, _, _, hiff, _⟩ :=
      (fatal_iff_runtime_call_fails (failDevice 30) sampleWorld).2.2 0 2 ⟨true, 7⟩ ⟨true, 5⟩
        rfl rfl
    obtain ⟨s, hs⟩ := hiff.2 (by decide)
    exact ⟨w1, s, hs⟩

theorem ite_ne_of_ne {α : Type} {c : Prop} [Decidable c] {a b x : α} (ha : a ≠ x)
    (hb : b ≠ x) : (if c then a else b) ≠ x := by
  split <;> assumption

open blas_api blas_api.status in
theorem cuda_get_string_ne_empty (E : cublasStatus_t → StatusType) (error : StatusType) :
    TILED_MM_CUDA.get_string E error ≠ "" := by
  unfold TILED_MM_CUDA.get_string
  repeat (first | exact (by decide) | refine ite_ne_of_ne (by decide) ?_)

open blas_api blas_api.status in
theorem rocm_get_string_ne_empty (E : hipblasStatus_t → StatusType) (error : StatusType) :
    TILED_MM_ROCM.get_string E error ≠ "" := by
  unfold TILED_MM_ROCM.get_string
  repeat (first | exact (by decide) | refine ite_ne_of_ne (by decide) ?_)

open blas_api blas_api.status in
theorem cuda_get_string_unknown (E : cublasStatus_t → StatusType) (error : StatusType)
    (h : ∀ c, error ≠ E c) : TILED_MM_CUDA.get_string E error = "<unknown>" := by
  unfold TILED_MM_CUDA.get_string
  repeat rw [if_neg (h _)]

open blas_api blas_api.status in
theorem rocm_get_string_unknown (E : hipblasStatus_t → StatusType) (error : StatusType)
    (h : ∀ c, error ≠ E c) : TILED_MM_ROCM.get_string E error = "<unknown>" := by
  unfold TILED_MM_ROCM.get_string
  repeat rw [if_neg (h _)]

open blas_api blas_api.status in
/-- C6: on each backend `get_string` is a total function of the status value: for every
value, enumerated or not, the string it returns is not empty, and every value that is
not the value of an enumerator yields exactly the sentinel `<unknown>`. -/
theorem get_string_total_with_sentinel (error : StatusType) :
    (∀ E : cublasStatus_t → StatusType,
      TILED_MM_CUDA.get_string E error ≠ "" ∧
      ((∀ c, error ≠ E c) → TILED_MM_CUDA.get_string E error = "<unknown>")) ∧
    (∀ E : hipblasStatus_t → StatusType,
      TILED_MM_ROCM.get_string E error ≠ "" ∧
      ((∀ c, error ≠ E c) → TILED_MM_ROCM.get_string E error = "<unknown>")) :=
  ⟨fun E => ⟨cuda_get_string_ne_empty E error, cuda_get_string_unknown E error⟩,
    fun E => ⟨rocm_get_string_ne_empty E error, rocm_get_string_unknown E error⟩⟩

open blas_api blas_api.status in
theorem get_string_total_with_sentinel_witness :
    (∀ c, (42 : StatusType) ≠ cublasValue c) ∧ (∀ c, (42 : StatusType) ≠ hipblasValue c) ∧
    TILED_MM_CUDA.get_string cublasValue 42 = "<unknown>" ∧
    TILED_MM_ROCM.get_string hipblasValue 42 = "<unknown>" ∧
    TILED_MM_CUDA.get_string cublasValue 7 ≠ "" ∧
    TILED_MM_ROCM.get_string hipblasValue (-1) ≠ "" :=
  ⟨fun c => by cases c <;> decide, fun c => by cases c <;> decide,
    ((get_string_total_with_sentinel 42).1 cublasValue).2 (fun c => by cases c <;> decide),
    ((get_string_total_with_sentinel 42).2 hipblasValue).2 (fun c => by cases c <;> decide),
    ((get_string_total_with_sentinel 7).1 cublasValue).1,
    ((get_string_total_with_sentinel (-1)).2 hipblasValue).1⟩

open blas_api blas_api.status in
theorem cuda_get_string_case (E : cublasStatus_t → StatusType) (hE : Function.Injective E)
    (c : cublasStatus_t) : TILED_MM_CUDA.get_string E (E c) = TILED_MM_CUDA.caseString c := by
  cases c <;> simp [TILED_MM_CUDA.get_string, TILED_MM_CUDA.caseString, hE.eq_iff]

open blas_api blas_api.status in
theorem rocm_get_string_case (E : hipblasStatus_t → StatusType) (hE : Function.Injective E)
    (c : hipblasStatus_t) :
    TILED_MM_ROCM.get_string E (E c) = (TILED_MM_ROCM.caseString c).getD "<unknown>" := by
  cases c <;> simp [TILED_MM_ROCM.get_string, TILED_MM_ROCM.caseString, hE.eq_iff]

open blas_api blas_api.status in
theorem cuda_caseString_injective : Function.Injective TILED_MM_CUDA.caseString := by
  intro c d h
  cases c <;> cases d <;> first | rfl | exact absurd h (by decide)

open blas_api blas_api.status in
/-- C7: with pairwise distinct enumerator values, the CUDA lookup gives every enumerator
a string of its own that is not the sentinel, and so does the ROCm lookup for every
enumerator it has a case for; the ROCm lookup has no case for the invalid-argument
status `HIPBLAS_STATUS_INVALID_VALUE`, for which it returns the sentinel `<unknown>`. -/
theorem rocm_get_string_invalid_value_unknown (Ec : cublasStatus_t → StatusType)
    (Eh : hipblasStatus_t → StatusType) (hc : Function.Injective Ec)
    (hh : Function.Injective Eh) :
    (∀ c, TILED_MM_CUDA.get_string Ec (Ec c) ≠ "<unknown>" ∧
      ∀ d, d ≠ c → TILED_MM_CUDA.get_string Ec (Ec d) ≠ TILED_MM_CUDA.get_string Ec (Ec c)) ∧
    TILED_MM_ROCM.get_string Eh (Eh .HIPBLAS_STATUS_INVALID_VALUE) = "<unknown>" ∧
    (∀ c, c ≠ .HIPBLAS_STATUS_INVALID_VALUE →
      TILED_MM_ROCM.get_string Eh (Eh c) ≠ "<unknown>" ∧
      ∀ d, d ≠ c → TILED_MM_ROCM.get_string Eh (Eh d) ≠ TILED_MM_ROCM.get_string Eh (Eh c)) := by
  refine ⟨fun c => ⟨?_, fun d hd => ?_⟩, ?_, fun c hcne => ⟨?_, fun d hd => ?_⟩⟩
  · rw [cuda_get_string_case Ec hc]
    cases c <;> decide
  · rw [cuda_get_string_case Ec hc, cuda_get_string_case Ec hc]
    exact fun h => hd (cuda_caseString_injective h)
  · rw [rocm_get_string_case Eh hh]
    rfl
  · rw [rocm_get_string_case Eh hh]
    cases c <;> first | exact absurd rfl hcne | decide
  · rw [rocm_get_string_case Eh hh, rocm_get_string_case Eh hh]
    cases c <;> cases d <;> first | exact absurd rfl hcne | exact absurd rfl hd | decide

open blas_api blas_api.status in
theorem rocm_get_string_invalid_value_unknown_witness :
    Function.Injective cublasValue ∧ Function.Injective hipblasValue ∧
    TILED_MM_ROCM.get_string hipblasValue 3 = "<unknown>" ∧
    TILED_MM_CUDA.get_string cublasValue 7 ≠ "<unknown>" :=
  have hc : Function.Injective cublasValue := by
    intro c d h
    cases c <;> cases d <;> first | rfl | exact absurd h (by decide)
  have hh : Function.Injective hipblasValue := by
    intro c d h
    cases c <;> cases d <;> first | rfl | exact absurd h (by decide)
  ⟨hc, hh, (rocm_get_string_invalid_value_unknown cublasValue hipblasValue hc hh).2.1,
    ((rocm_get_string_invalid_value_unknown cublasValue hipblasValue hc hh).1
      .CUBLAS_STATUS_INVALID_VALUE).1⟩

/-- C4: for a program of constructions, move constructions, move assignments (self
assignment included), destructions, waits, elapsed-time queries and stream insertions
that only uses live objects (its run never reaches undefined behaviour) and in which the
handles the runtime hands out are pairwise distinct, after every initial part of the
program no two live valid markers hold the same handle, no handle has two release
calls, and when no object is live every handle handed out has exactly one release call. -/
theorem at_most_one_owner (dev : Device) (ops : List Op) (wfin : World)
    (hrun : (run dev ops World.empty).world? = some wfin)
    (hfresh : (allocated wfin.trace).Nodup) (n : ℕ) :
    ∃ w, (run dev (ops.take n) World.empty).world? = some w ∧
      (∀ a b ma mb, w.objs a = some ma → w.objs b = some mb → ma.valid_ = true →
        mb.valid_ = true → ma.event_ = mb.event_ → a = b) ∧
      (released w.trace).Nodup ∧
      ((∀ a, w.objs a = none) →
        ∀ h, h ∈ allocated w.trace → (released w.trace).count h = 1) := by
  obtain ⟨w2, t, h2, ht⟩ := run_take ops hrun n
  have hfresh2 : (allocated w2.trace).Nodup := by
    rw [ht] at hfresh; exact nodup_allocated_of_extends hfresh
  exact ⟨w2, h2, run_atMostOneOwner (ops.take n) inv_empty h2 hfresh2⟩

theorem at_most_one_owner_witness :
    ∃ wfin,
      (run (okDevice 0) sampleProgram World.empty).world? = some wfin ∧
      (allocated wfin.trace).Nodup ∧
      ∃ w, (run (okDevice 0) (sampleProgram.take 9) World.empty).world? = some w ∧
        (∀ a b ma mb, w.objs a = some ma → w.objs b = some mb → ma.valid_ = true →
          mb.valid_ = true → ma.event_ = mb.event_ → a = b) ∧
        (released w.trace).Nodup ∧
        ((∀ a, w.objs a = none) →
          ∀ h, h ∈ allocated w.trace → (released w.trace).count h = 1) := by
  refine ⟨_, rfl, by decide, ?_⟩
  exact at_most_one_owner (okDevice 0) sampleProgram _ rfl (by decide) 9

theorem operator_assign_fatal_valid {dev : Device} {this other : Addr} {w w1 : World}
    {s : cudaError_t} {self : cuda_event} (hthis : w.objs this = some self)
    (hstep : cuda_event.operator_assign dev this other w = .fatal w1 s) :
    self.valid_ = true := by
  unfold cuda_event.operator_assign at hstep
  cases hlive : w.objs other with
  | none => simp [hthis, hlive] at hstep
  | some o =>
    by_cases hne : this = other
    · simp [hthis, hlive, hne] at hstep
    · by_cases hv : self.valid_ = true
      · exact hv
      · simp [hthis, hlive, hne, hv] at hstep

/-- C9, as the claim words it, fails: on a runtime where every call succeeds, after
constructing a marker at address 0 and move-constructing a marker at address 1 from
it, the marker at 0 is invalid; the move assignment of the marker at 1 to it makes its
validity flag true again.  So the invalid state is not terminal. -/
theorem invalid_marker_becomes_valid_again :
    ((run (okDevice 0) [.construct 0, .moveConstruct 1 0] World.empty).world?.bind
      (fun w => w.objs 0)) = some ⟨false, 0⟩ ∧
    ((run (okDevice 0) [.construct 0, .moveConstruct 1 0, .moveAssign 0 1]
      World.empty).world?.bind (fun w => w.objs 0)) = some ⟨true, 0⟩ ∧
    ¬ InvalidIsTerminal := by
  refine ⟨by decide, by decide, ?_⟩
  intro hterm
  have hw : ∃ w, (run (okDevice 0) [.construct 0, .moveConstruct 1 0] World.empty).world? =
      some w ∧ w.objs 0 = some ⟨false, 0⟩ ∧
      ∃ w1, (step (okDevice 0) (.moveAssign 0 1) w).world? = some w1 ∧
        w1.objs 0 = some ⟨true, 0⟩ := ⟨_, rfl, rfl, _, rfl, rfl⟩
  obtain ⟨w, _, h0, w1, hstep, h1⟩ := hw
  exact absurd (hterm (okDevice 0) (.moveAssign 0 1) w w1 0 ⟨false, 0⟩ ⟨true, 0⟩ h0 rfl hstep h1)
    (by decide)

/-- C9, amended: a move that returns leaves its source invalid, and a destruction ends
the lifetime of its object.  An invalid marker stays invalid under every operation
except one: as the destination of a move assignment from another, valid marker it
becomes valid and takes that marker's handle.  A valid marker at an address that held
no object comes only from a construction or from a move construction from a valid
marker. -/
theorem validity_flag_transitions (dev : Device) (op : Op) (w w1 : World) (a : Addr)
    (hstep : (step dev op w).world? = some w1) :
    (∀ m, w.objs a = some m →
      (∀ this, this ≠ a → (op = .moveConstruct this a ∨ op = .moveAssign this a) →
        step dev op w = .returned w1 () → w1.objs a = some ⟨false, m.event_⟩) ∧
      (op = .destruct a → w1.objs a = none) ∧
      (m.valid_ = false → ∀ m1, w1.objs a = some m1 → m1.valid_ = true →
        ∃ other o, other ≠ a ∧ op = .moveAssign a other ∧ w.objs other = some o ∧
          o.valid_ = true ∧ m1 = ⟨true, o.event_⟩) ∧
      (m.valid_ = false → ∀ other o, other ≠ a → op = .moveAssign a other →
        w.objs other = some o → o.valid_ = true →
        step dev op w = .returned w1 () ∧ w1.objs a = some ⟨true, o.event_⟩)) ∧
    (w.objs a = none → ∀ m1, w1.objs a = some m1 → m1.valid_ = true →
      op = .construct a ∨
      ∃ other o, op = .moveConstruct a other ∧ w.objs other = some o ∧ o.valid_ = true) := by
  refine ⟨fun m hlive => ⟨?_, ?_, ?_, ?_⟩, ?_⟩
  · intro this hne hop hret
    rcases hop with hop | hop
    · subst hop
      obtain ⟨o, _, hoth, _, _, hobjs⟩ := move_ctor_objs hstep
      rw [hlive] at hoth
      have hmo : m = o := Option.some.inj hoth
      subst hmo
      rw [hobjs]; simp
    · subst hop
      obtain ⟨self, o, _, hoth, ⟨_, hsame | ⟨s, hf⟩⟩ | ⟨_, hobjs⟩⟩ := operator_assign_objs hstep
      · exact absurd hsame hne
      · rw [show step dev (.moveAssign this a) w = cuda_event.operator_assign dev this a w
          from rfl, hf] at hret
        exact Outcome.noConfusion hret
      · rw [hlive] at hoth
        have hmo : m = o := Option.some.inj hoth
        subst hmo
        rw [hobjs]; simp
  · intro hop
    subst hop
    rw [dtor_objs hstep]; simp
  · intro hinv m1 hnew hv
    rcases step_objs_live hstep hlive with h | ⟨_, h⟩ | ⟨this, _, _, h⟩ | ⟨other, o, hne, hop, ho, h⟩
    · rw [h] at hnew
      have hmm : m = m1 := Option.some.inj hnew
      subst hmm
      rw [hinv] at hv; exact Bool.noConfusion hv
    · rw [h] at hnew; exact Option.noConfusion hnew
    · rw [h] at hnew
      have hmm := Option.some.inj hnew
      subst hmm
      exact Bool.noConfusion hv
    · rw [h] at hnew
      have hmm := Option.some.inj hnew
      subst hmm
      have hov : o.valid_ = true := hv
      exact ⟨other, o, hne, hop, ho, hov, by rw [hov]⟩
  · intro hinv other o hne hop ho hov
    subst hop
    obtain ⟨self, o2, hthis, hoth, ⟨_, hsame | ⟨s, hf⟩⟩ | ⟨_, hobjs⟩⟩ := operator_assign_objs hstep
    · exact absurd hsame.symm hne
    · rw [hlive] at hthis
      have hms : m = self := Option.some.inj hthis
      subst hms
      have := operator_assign_fatal_valid hlive hf
      rw [hinv] at this; exact Bool.noConfusion this
    · rw [ho] at hoth
      have hoo : o = o2 := Option.some.inj hoth
      subst hoo
      constructor
      · have hdef : step dev (.moveAssign a other) w = cuda_event.operator_assign dev a other w :=
          rfl
        rw [hdef] at hstep ⊢
        cases hout : cuda_event.operator_assign dev a other w with
        | returned w2 u =>
          rw [hout] at hstep
          simp [Outcome.world?] at hstep
          rw [hstep]
        | fatal w2 s =>
          have := operator_assign_fatal_valid hlive hout
          rw [hinv] at this; exact Bool.noConfusion this
        | undefined =>
          rw [hout] at hstep
          simp [Outcome.world?] at hstep
      · rw [hobjs, Function.update_noteq (Ne.symm hne)]
        simp [hov]
  · intro hfree m1 hnew hv
    rcases step_objs_new hstep hfree hnew with ⟨hop, _, _⟩ | ⟨other, o, hop, ho, hm⟩
    · exact Or.inl hop
    · subst hm
      exact Or.inr ⟨other, o, hop, ho, hv⟩

theorem validity_flag_transitions_witness :
    ∃ w1, (step (okDevice 0) (.moveAssign 1 0) sampleWorld).world? = some w1 ∧
      sampleWorld.objs 1 = some ⟨false, 9⟩ ∧ sampleWorld.objs 0 = some ⟨true, 7⟩ ∧
      (step (okDevice 0) (.moveAssign 1 0) sampleWorld = .returned w1 () ∧
        w1.objs 1 = some ⟨true, 7⟩) ∧
      w1.objs 0 = some ⟨false, 7⟩ := by
  refine ⟨_, rfl, rfl, rfl, ?_, ?_⟩
  · exact ((validity_flag_transitions (okDevice 0) (.moveAssign 1 0) sampleWorld _ 1 rfl).1
      ⟨false, 9⟩ rfl).2.2.2 rfl 0 ⟨true, 7⟩ (by decide) rfl rfl rfl
  · exact ((validity_flag_transitions (okDevice 0) (.moveAssign 1 0) sampleWorld _ 0 rfl).1
      ⟨true, 7⟩ rfl).1 1 (by decide) (Or.inr rfl) rfl

/-- C10: on a runtime that follows the documented rule for `cudaEventElapsedTime`
(no success on a marker created with `cudaEventDisableTiming`), after any program of
the wrapper that returns, `time_since` between any two live valid markers escalates a
fatal failure and returns no number: the constructor allocates every marker with
`cudaEventDisableTiming`. -/
theorem time_since_fatal_without_timing (dev : Device) (hdev : dev.HonoursDisableTiming)
    (ops : List Op) (w : World) (hrun : run dev ops World.empty = .returned w ())
    (e1 e2 : Addr) (m1 m2 : cuda_event) (h1 : w.objs e1 = some m1) (h2 : w.objs e2 = some m2)
    (hv1 : m1.valid_ = true) (hv2 : m2.valid_ = true) :
    lastFlags m1.event_ w.trace = some cudaEventDisableTiming ∧
    lastFlags m2.event_ w.trace = some cudaEventDisableTiming ∧
    (∃ w1 s, cuda_event.time_since dev e2 e1 w = .fatal w1 s) ∧
    ∀ w1 x, cuda_event.time_since dev e2 e1 w ≠ .returned w1 x := by
  have inv := run_timingInv ops (world_of_returned hrun) inv_empty_timing
  have hf1 := lastFlags_of_allocated inv.2 (inv.1 e1 m1 h1 hv1)
  have hf2 := lastFlags_of_allocated inv.2 (inv.1 e2 m2 h2 hv2)
  have hs := hdev w.trace m1.event_ m2.event_ (Or.inl hf1)
  refine ⟨hf1, hf2, ?_, ?_⟩
  · unfold cuda_event.time_since
    simp [h1, h2, cuda_event.event, cuda_check_status_failure hs]
  · intro w1 x
    unfold cuda_event.time_since
    simp [h1, h2, cuda_event.event, cuda_check_status_failure hs]

theorem time_since_fatal_without_timing_witness :
    timingDevice.HonoursDisableTiming ∧
    ∃ w, run timingDevice timingProgram World.empty = .returned w () ∧
      w.objs 0 = some ⟨true, 0⟩ ∧ w.objs 1 = some ⟨true, 1⟩ ∧
      (∃ w1 s, cuda_event.time_since timingDevice 1 0 w = .fatal w1 s) ∧
      ∃ w1, cuda_event.time_since timingDevice 1 0 w =
        .fatal w1 cudaErrorInvalidResourceHandle := by
  have hdev : timingDevice.HonoursDisableTiming := by
    intro tr start stop h
    simp [timingDevice, h, cudaErrorInvalidResourceHandle, cudaSuccess]
  refine ⟨hdev, _, rfl, rfl, rfl, ?_, _, rfl⟩
  exact (time_since_fatal_without_timing timingDevice hdev timingProgram _ rfl 0 1
    ⟨true, 0⟩ ⟨true, 1⟩ rfl rfl rfl rfl).2.2.1

end gpu
